import Mathlib

/-!
A verification development for the Pyrrhus budget-constrained orchestrator.

This file contains a shallow embedding of the scheduling and cost-governance
core (tier catalog, static allocator with its downgrade cascade, dynamic
ROI executor, deliverable assembly) translated from the Python sources in
`src/models.py`, `src/agents/allocator.py`, `src/agents/dynamic_executor.py`,
`src/agents/executor.py` and `src/agents/evaluator.py`, together with
theorems settling the specification claims about this code.

Modelling conventions:
* Python `float` dollar amounts and quality scores are modelled as `ℚ`
  (all constants in the program are exact decimals).
* Python `int` token counts are modelled as `ℕ`.
* External LLM and judge calls are modelled as oracle function parameters:
  the embedding is parametric in the text/token/score responses.
* Python string formatting that only produces human-readable report text
  (e.g. the `reason` strings of ROI decisions, which interpolate floats)
  is not modelled; the structured fields those strings are rendered from
  are modelled instead.
-/

namespace Pyrrhus

/-! ## Tier catalog and data model (src/models.py) -/

inductive Complexity
  | low
  | medium
  | high
deriving DecidableEq, Repr

inductive Tier
  | fast
  | deep
  | verify
deriving DecidableEq, Repr, Inhabited

/-- `TIER_MAX_TOKENS` from src/models.py. -/
def TIER_MAX_TOKENS : Tier → ℕ
  | .fast => 2048
  | .deep => 8192
  | .verify => 4096

/-- `COMPLEXITY_TO_TIER` from src/models.py. -/
def COMPLEXITY_TO_TIER : Complexity → Tier
  | .low => .fast
  | .medium => .verify
  | .high => .deep

/-- `TIER_PRICING_PER_1M_INPUT` from src/models.py
(0.10, 1.25, 0.15 dollars per 1M input tokens). -/
def TIER_PRICING_PER_1M_INPUT : Tier → ℚ
  | .fast => 1/10
  | .deep => 5/4
  | .verify => 3/20

/-- `TIER_PRICING_PER_1M_OUTPUT` from src/models.py
(0.40, 10.00, 0.60 dollars per 1M output tokens). -/
def TIER_PRICING_PER_1M_OUTPUT : Tier → ℚ
  | .fast => 2/5
  | .deep => 10
  | .verify => 3/5

/-- `TIER_MODELS` from src/models.py. -/
def TIER_MODELS : Tier → String
  | .fast => "gemini-2.5-flash-lite"
  | .deep => "gemini-2.5-pro"
  | .verify => "gemini-2.5-flash"

/-- `SubTask` from src/models.py (planner-produced node). -/
structure SubTask where
  id : ℕ
  description : String
  complexity : Complexity
  dependencies : List ℕ
deriving DecidableEq, Repr

/-- `TaskGraph` from src/models.py. -/
structure TaskGraph where
  subtasks : List SubTask
deriving DecidableEq, Repr

/-! ## Static allocator (src/agents/allocator.py) -/

/-- `_estimate_cost` from src/agents/allocator.py:
`tokens * TIER_PRICING_PER_1M_OUTPUT[tier] / 1_000_000`. -/
def estimate_cost (tokens : ℕ) (tier : Tier) : ℚ :=
  tokens * TIER_PRICING_PER_1M_OUTPUT tier / 1000000

/-- `SubTaskAllocation` from src/models.py (the `model` string field is
determined by the tier via `TIER_MODELS` and omitted). -/
structure SubTaskAllocation where
  subtask_id : ℕ
  tier : Tier
  max_tokens : ℕ
  estimated_cost_dollars : ℚ
  skipped : Bool := false
deriving DecidableEq, Repr

/-- One entry of the allocator's human-readable `downgrades` list, modelled
structurally (the Python code appends formatted strings; only the event kind
and subtask id carry information). -/
inductive DowngradeEvent
  | deepToVerify (sid : ℕ)
  | deepToFast (sid : ℕ)
  | skipEvent (sid : ℕ)
  | scaled
deriving DecidableEq, Repr

/-- `ExecutionPlan` from src/models.py (`budget_tokens` duplicates
`total_estimated_tokens` in `AllocatorAgent.allocate` and is omitted). -/
structure ExecutionPlan where
  allocations : List SubTaskAllocation
  total_estimated_tokens : ℕ
  total_estimated_cost_dollars : ℚ
  budget_dollars : ℚ
  downgrades_applied : List DowngradeEvent
deriving DecidableEq, Repr

/-- The content of the `ValueError` raised at allocator entry
("Budget exhausted before allocation: ... budget, ... already spent"):
the message names the budget and the already-spent amount. -/
structure BudgetExhausted where
  budget_dollars : ℚ
  spent_dollars : ℚ
deriving DecidableEq, Repr

/-! ### Criticality order (`_criticality_order`, src/agents/allocator.py)

The Python function memoises longest-path-to-sink depths in a dict
`depth_cache` and returns `sorted(depth_cache, key=lambda sid: depth_cache[sid])`:
the dict's keys in insertion order, stably sorted by depth. The memo cache is
modelled as an association list in insertion order; Python's stable `sorted`
is modelled by `List.insertionSort` (a stable sort) on the same key. -/

/-- The cache `depth_cache`: association list in dict insertion order. -/
abbrev DepthCache := List (ℕ × ℕ)

def cacheKeys (c : DepthCache) : List ℕ := c.map Prod.fst

def cacheLookup (c : DepthCache) (k : ℕ) : Option ℕ :=
  (c.find? (fun p => p.1 == k)).map Prod.snd

/-- `depth_cache[sid] = d`: overwrite in place when the key exists (Python
dicts keep the original insertion position), append otherwise. -/
def cacheInsert (c : DepthCache) (k d : ℕ) : DepthCache :=
  if (c.find? (fun p => p.1 == k)).isSome then
    c.map (fun p => if p.1 == k then (k, d) else p)
  else
    c ++ [(k, d)]

/-- The `dependents` adjacency of `_criticality_order`: ids of subtasks that
list `sid` among their dependencies, in `graph.subtasks` order. -/
def dependentsOf (g : TaskGraph) (sid : ℕ) : List ℕ :=
  (g.subtasks.filter (fun s => sid ∈ s.dependencies)).map SubTask.id

/-- The memoised recursion `max_depth` of `_criticality_order`, with explicit
cache threading and a fuel bound (the Python recursion terminates because
validated graphs are acyclic; fuel `subtasks.length + 1` suffices there).
Children are visited left to right, the cache threaded through; the running
maximum starts at 0, which agrees with Python's `max(...)` over the nonempty
children list because depths are naturals. -/
def visitDepth (dep : ℕ → List ℕ) : ℕ → DepthCache → ℕ → DepthCache × ℕ
  | 0, c, _ => (c, 0)
  | fuel + 1, c, sid =>
    match cacheLookup c sid with
    | some d => (c, d)
    | none =>
      match dep sid with
      | [] => (cacheInsert c sid 0, 0)
      | ch :: rest =>
        let p := (ch :: rest).foldl
          (fun (acc : DepthCache × ℕ) x =>
            let q := visitDepth dep fuel acc.1 x
            (q.1, max acc.2 q.2))
          (c, 0)
        (cacheInsert p.1 sid (1 + p.2), 1 + p.2)

/-- The fully populated `depth_cache`: `for s in graph.subtasks: max_depth(s.id)`. -/
def buildCache (g : TaskGraph) : DepthCache :=
  g.subtasks.foldl
    (fun c s => (visitDepth (dependentsOf g) (g.subtasks.length + 1) c s.id).1) []

/-- The depth recorded for `sid` (0 when absent, which does not arise for
graph ids). -/
def cachedDepth (g : TaskGraph) (sid : ℕ) : ℕ :=
  (cacheLookup (buildCache g) sid).getD 0

/-- `_criticality_order`: the cache keys stably sorted by ascending depth,
as Python's stable `sorted(depth_cache, key=...)`. -/
def criticalityOrder (g : TaskGraph) : List ℕ :=
  List.insertionSort (fun a b => cachedDepth g a ≤ cachedDepth g b)
    (cacheKeys (buildCache g))

/-- The ordering claimed by the specification ("ties broken by natural id
order"): stably sorted by ascending (depth, id). Stated from the spec's
words, for comparison with `criticalityOrder` (the code's ordering). -/
def criticalityOrderSpec (g : TaskGraph) : List ℕ :=
  List.insertionSort
    (fun a b => cachedDepth g a < cachedDepth g b ∨
      (cachedDepth g a = cachedDepth g b ∧ a ≤ b))
    (cacheKeys (buildCache g))

/-! ### The downgrade cascade (`AllocatorAgent.allocate`) -/

/-- `AllocatorAgent._set_tier`. -/
def set_tier (a : SubTaskAllocation) (t : Tier) : SubTaskAllocation :=
  { a with
    tier := t
    max_tokens := TIER_MAX_TOKENS t
    estimated_cost_dollars := estimate_cost (TIER_MAX_TOKENS t) t }

/-- `AllocatorAgent._total_cost`: sum of estimated costs over all allocations
(skipped ones included; their cost is 0). -/
def total_cost (l : List SubTaskAllocation) : ℚ :=
  (l.map SubTaskAllocation.estimated_cost_dollars).sum

/-- Allocation state threaded through the cascade: the allocations (kept in
`graph.subtasks` order, as the Python dict keyed by id reproduces at exit)
and the accumulated downgrade events. -/
abbrev AllocState := List SubTaskAllocation × List DowngradeEvent

/-- Downgrade pass 1 body at one subtask id: `Deep → Verify`. -/
def step1 (st : AllocState) (sid : ℕ) : AllocState :=
  (st.1.map (fun a =>
      if a.subtask_id == sid && a.tier == Tier.deep && !a.skipped then
        set_tier a Tier.verify
      else a),
   st.2 ++
     (if st.1.any (fun a => a.subtask_id == sid && a.tier == Tier.deep && !a.skipped)
      then [DowngradeEvent.deepToVerify sid] else []))

/-- Downgrade pass 2 body at one subtask id: remaining `Deep → Fast`. -/
def step2 (st : AllocState) (sid : ℕ) : AllocState :=
  (st.1.map (fun a =>
      if a.subtask_id == sid && a.tier == Tier.deep && !a.skipped then
        set_tier a Tier.fast
      else a),
   st.2 ++
     (if st.1.any (fun a => a.subtask_id == sid && a.tier == Tier.deep && !a.skipped)
      then [DowngradeEvent.deepToFast sid] else []))

/-- Downgrade pass 3 body at one subtask id: skip a `Verify` subtask
(`skipped = True`, `max_tokens = 0`, `estimated_cost_dollars = 0`). -/
def step3 (st : AllocState) (sid : ℕ) : AllocState :=
  (st.1.map (fun a =>
      if a.subtask_id == sid && a.tier == Tier.verify && !a.skipped then
        { a with skipped := true, max_tokens := 0, estimated_cost_dollars := 0 }
      else a),
   st.2 ++
     (if st.1.any (fun a => a.subtask_id == sid && a.tier == Tier.verify && !a.skipped)
      then [DowngradeEvent.skipEvent sid] else []))

/-- One downgrade pass: iterate the criticality order, stopping as soon as
the total estimated cost fits the remaining budget (the `break` at the top of
each Python loop iteration). -/
def runPass (step : AllocState → ℕ → AllocState) (r : ℚ) :
    List ℕ → AllocState → AllocState
  | [], st => st
  | sid :: rest, st =>
    if total_cost st.1 ≤ r then st
    else runPass step r rest (step st sid)

/-- Python `int()` on the nonnegative rationals arising in pass 4 equals the
floor; `q.num / q.den` is the integer floor of `q`. -/
def ratFloorNat (q : ℚ) : ℕ := (q.num / (q.den : ℤ)).toNat

/-- Downgrade pass 4: proportional `max_tokens` reduction with a 128-token
floor, applied only when the cascade left the estimated cost above the
remaining budget and the active cost is positive. -/
def pass4 (r : ℚ) (st : AllocState) : AllocState :=
  if total_cost st.1 > r then
    let current : ℚ :=
      ((st.1.filter (fun a => !a.skipped)).map
        SubTaskAllocation.estimated_cost_dollars).sum
    if current > 0 then
      let scale := r / current
      (st.1.map (fun a =>
          if a.skipped then a
          else
            let newMax := max 128 (ratFloorNat ((a.max_tokens : ℚ) * scale))
            { a with
              max_tokens := newMax
              estimated_cost_dollars := estimate_cost newMax a.tier }),
       st.2 ++ [DowngradeEvent.scaled])
    else st
  else st

/-- Initial tier mapping: for each node, the default tier by complexity at
the full default token cap. -/
def initAllocs (g : TaskGraph) : List SubTaskAllocation :=
  g.subtasks.map (fun s =>
    let t := COMPLEXITY_TO_TIER s.complexity
    { subtask_id := s.id
      tier := t
      max_tokens := TIER_MAX_TOKENS t
      estimated_cost_dollars := estimate_cost (TIER_MAX_TOKENS t) t
      skipped := false })

/-- `AllocatorAgent.allocate` (src/agents/allocator.py). The initial
allocation maps complexities to default tiers at full caps; passes 1–4 then
degrade until the estimated cost fits `remaining = budget - spent`, and the
plan is emitted. Raising `ValueError` is modelled as `Except.error`. -/
def allocate (g : TaskGraph) (budget_dollars : ℚ) (spent_dollars : ℚ) :
    Except BudgetExhausted ExecutionPlan :=
  let remaining := budget_dollars - spent_dollars
  if remaining ≤ 0 then
    .error ⟨budget_dollars, spent_dollars⟩
  else
    let ord := criticalityOrder g
    let st1 := runPass step1 remaining ord (initAllocs g, [])
    let st2 := runPass step2 remaining ord st1
    let st3 := runPass step3 remaining ord st2
    let st4 := pass4 remaining st3
    .ok
      { allocations := st4.1
        total_estimated_tokens := (st4.1.map SubTaskAllocation.max_tokens).sum
        total_estimated_cost_dollars := total_cost st4.1
        budget_dollars := budget_dollars
        downgrades_applied := st4.2 }

/-! ## Evaluator (src/agents/evaluator.py)

`EvaluatorAgent` defines exactly the methods below. The dynamic executor's
inner scoring step invokes `self.evaluator.quick_score(...)`; Python resolves
that name by attribute lookup on the instance/class, yielding
`AttributeError` when no such method is defined. -/

/-- The methods defined in the body of `class EvaluatorAgent`. -/
def EvaluatorAgentMethods : List String :=
  ["__init__", "evaluate_subtask", "evaluate_deliverable", "_evaluate"]

/-- The method name the dynamic executor's per-attempt scoring step invokes
on the evaluator (src/agents/dynamic_executor.py, line 210). -/
def dynamicExecutorScoringMethod : String := "quick_score"

/-- Python attribute lookup of a method on an `EvaluatorAgent` instance:
`some` when the class defines it, `none` (= `AttributeError`) otherwise. -/
def evaluatorLookupMethod (name : String) : Option String :=
  if name ∈ EvaluatorAgentMethods then some name else none

/-! ## Dynamic ROI executor (src/agents/dynamic_executor.py)

The LLM calls and the judge's scoring are external I/O; they are modelled by
oracle parameters: `llm tier prompt` returns the generated text with its
prompt/completion token counts, and `judge desc output task` returns the
`(score, reason)` pair the inner loop consumes (the repository's
`EvaluatorAgent` lacks the `quick_score` method actually invoked there — see
the claim about the evaluator interface; the oracle models the scoring signal
the loop is written against). -/

/-- `QUALITY_THRESHOLD = 6.0`. -/
def QUALITY_THRESHOLD : ℚ := 6

/-- `MIN_ROI = 50.0`. -/
def MIN_ROI : ℚ := 50

/-- `SYNTHESIS_RESERVE_FRACTION = 0.35`. -/
def SYNTHESIS_RESERVE_FRACTION : ℚ := 7/20

/-- `TIER_LADDER = [Tier.FAST, Tier.VERIFY, Tier.DEEP]`. -/
def TIER_LADDER : List Tier := [.fast, .verify, .deep]

/-- `EXPECTED_LIFT.get((a, b), EXPECTED_LIFT.get((FAST, VERIFY), 2.0))`:
the lift table with the dictionary-lookup fallback of the source. -/
def EXPECTED_LIFT : Tier → Tier → ℚ
  | .fast, .verify => 2
  | .verify, .deep => 3/2
  | .fast, .deep => 3
  | _, _ => 2

/-- `_estimate_cost` from src/agents/dynamic_executor.py: worst-case cost of
one call at `tier` (output side only). -/
def dyn_estimate_cost (tier : Tier) : ℚ :=
  TIER_MAX_TOKENS tier * TIER_PRICING_PER_1M_OUTPUT tier / 1000000

/-- `_actual_cost` from src/agents/dynamic_executor.py. -/
def actual_cost (prompt_tokens completion_tokens : ℕ) (tier : Tier) : ℚ :=
  prompt_tokens * TIER_PRICING_PER_1M_INPUT tier / 1000000 +
    completion_tokens * TIER_PRICING_PER_1M_OUTPUT tier / 1000000

/-- Integer floor of a rational (`q.num / q.den` with `/` the flooring
integer division; `q.den > 0`). -/
def ratFloorInt (q : ℚ) : ℤ := q.num / (q.den : ℤ)

/-- Python `round(x, 1)` as applied to the ROI values, modelled as
floor-based half-up rounding to one decimal (the ROI values arising from the
lift table are never exact ties, where float banker's rounding could differ). -/
def round1 (q : ℚ) : ℚ := (ratFloorInt (q * 10 + 1/2) : ℚ) / 10

/-- `SubTaskAttempt` from src/models.py. -/
structure SubTaskAttempt where
  tier : Tier
  model : String
  output : String
  quality_score : ℚ
  cost_dollars : ℚ
  prompt_tokens : ℕ
  completion_tokens : ℕ
deriving DecidableEq, Repr

/-- `ROIDecision` from src/models.py. The `reason` field (a human-readable
string interpolating the same numeric fields) is not modelled. -/
structure ROIDecision where
  subtask_id : ℕ
  current_tier : Tier
  current_quality : ℚ
  proposed_tier : Tier
  upgrade_cost_estimate : ℚ
  expected_quality_lift : ℚ
  roi : ℚ
  decision : String
deriving DecidableEq, Repr

/-- `SubTaskResult` from src/models.py (the `model` field is `TIER_MODELS`
of the tier and omitted). -/
structure SubTaskResult where
  subtask_id : ℕ
  description : String
  tier : Tier
  tokens_budgeted : ℕ
  prompt_tokens : ℕ
  completion_tokens : ℕ
  total_tokens : ℕ
  cost_dollars : ℚ
  surplus : ℤ
  output : String
  skipped : Bool
  prompt : String
  attempts : List SubTaskAttempt
  roi_decisions : List ROIDecision
  final_attempt_index : ℕ
deriving DecidableEq, Repr, Inhabited

/-- Response of one `llm.generate_content` call as consumed via
`extract_response`: text plus usage metadata. -/
structure AttemptOut where
  output : String
  prompt_tokens : ℕ
  completion_tokens : ℕ

/-- `dict.get(k, "")` on the `outputs` dict. -/
def dictGetStr (m : List (ℕ × String)) (k : ℕ) : String :=
  ((m.find? (fun p => p.1 == k)).map Prod.snd).getD ""

/-- `outputs[k] = v`: overwrite in place or append (dict semantics). -/
def dictSetStr (m : List (ℕ × String)) (k : ℕ) (v : String) :
    List (ℕ × String) :=
  if (m.find? (fun p => p.1 == k)).isSome then
    m.map (fun p => if p.1 == k then (k, v) else p)
  else
    m ++ [(k, v)]

/-- Python `sep.join(parts)`. -/
def pyJoin (sep : String) : List String → String
  | [] => ""
  | [x] => x
  | x :: y :: xs => x ++ sep ++ pyJoin sep (y :: xs)

/-- `_build_context` from src/agents/dynamic_executor.py (identical to the
one in src/agents/executor.py). -/
def build_context (task subtask_desc : String) (dep_ids : List ℕ)
    (outputs : List (ℕ × String)) : String :=
  let parts := ["OVERALL TASK: " ++ task ++ "\n",
                "YOUR SUBTASK: " ++ subtask_desc ++ "\n"]
  let parts := parts ++
    (if dep_ids.isEmpty then []
     else ["CONTEXT FROM PRIOR SUBTASKS:\n"] ++
       dep_ids.filterMap (fun did =>
         let text := dictGetStr outputs did
         if text ≠ "" then
           some ("--- Subtask " ++ toString did ++ " output ---\n" ++ text ++ "\n")
         else none))
  let parts := parts ++
    ["Produce a thorough, high-quality response for YOUR SUBTASK. " ++
     "Use the context above where relevant but DO NOT repeat or " ++
     "restate content from prior subtasks — produce only NEW content."]
  pyJoin "\n" parts

/-! ### Topological sort (`_topological_sort`, identical in both executors)

Kahn's algorithm over dict-backed in-degrees, the ready queue re-sorted
ascending before each pop. The dicts are association lists in insertion
order; the while loop gets a fuel bound (each loop iteration pops one queue
element, and every id enters the queue at most twice, so
`2 * |subtasks| + 2` fuel is never exhausted). -/

/-- The `dependents` adjacency of `_topological_sort`: one entry per
occurrence of `sid` in a dependency list, in iteration order. -/
def dynDependents (g : TaskGraph) (sid : ℕ) : List ℕ :=
  g.subtasks.flatMap (fun s =>
    s.dependencies.filterMap (fun d => if d == sid then some s.id else none))

/-- `in_degree[k] -= 1` on the association list. -/
def decDegree (m : List (ℕ × ℤ)) (k : ℕ) : List (ℕ × ℤ) :=
  m.map (fun p => if p.1 == k then (p.1, p.2 - 1) else p)

def degreeOf (m : List (ℕ × ℤ)) (k : ℕ) : Option ℤ :=
  (m.find? (fun p => p.1 == k)).map Prod.snd

/-- `in_degree` after initialisation and the counting loop. -/
def initInDegree (g : TaskGraph) : List (ℕ × ℤ) :=
  let base := g.subtasks.foldl
    (fun (m : List (ℕ × ℤ)) s =>
      if (m.find? (fun p => p.1 == s.id)).isSome then m else m ++ [(s.id, 0)]) []
  g.subtasks.foldl
    (fun m s => s.dependencies.foldl (fun m _ =>
      m.map (fun p => if p.1 == s.id then (p.1, p.2 + 1) else p)) m) base

/-- The `while queue:` loop of `_topological_sort`. -/
def kahnLoop (dependents : ℕ → List ℕ) :
    ℕ → List ℕ → List (ℕ × ℤ) → List ℕ → List ℕ
  | 0, _, _, order => order
  | fuel + 1, queue, indeg, order =>
    match List.insertionSort (· ≤ ·) queue with
    | [] => order
    | sid :: qrest =>
      let step := (dependents sid).foldl
        (fun (acc : List (ℕ × ℤ) × List ℕ) child =>
          let m := decDegree acc.1 child
          if degreeOf m child == some 0 then (m, acc.2 ++ [child])
          else (m, acc.2))
        (indeg, [])
      kahnLoop dependents fuel (qrest ++ step.2) step.1 (order ++ [sid])

/-- `_topological_sort` from src/agents/dynamic_executor.py /
src/agents/executor.py. -/
def topoSort (g : TaskGraph) : List ℕ :=
  let indeg := initInDegree g
  let queue := (indeg.filter (fun p => p.2 == 0)).map Prod.fst
  kahnLoop (dynDependents g) (2 * g.subtasks.length + 2) queue indeg []

/-! ### The inner per-node attempt loop of `DynamicExecutor.execute` -/

/-- Build one `ROIDecision` (`round(roi, 1)` applied as in the source). -/
def mkDecision (sid : ℕ) (tier : Tier) (score : ℚ) (next : Tier)
    (upgrade_est lift roi : ℚ) (decision : String) : ROIDecision :=
  { subtask_id := sid
    current_tier := tier
    current_quality := score
    proposed_tier := next
    upgrade_cost_estimate := upgrade_est
    expected_quality_lift := lift
    roi := round1 roi
    decision := decision }

/-- The `while tier_idx < len(TIER_LADDER)` loop of `DynamicExecutor.execute`
for one subtask, recursing on the unclimbed remainder of the tier ladder.
Arguments after the oracles: the id, description and overall task (for the
judge call), the built prompt, the remaining ladder, the node's running
`available`, the accumulated attempts and decisions, and the running
`subtask_cost`. -/
def runNodeLoop (llm : Tier → String → AttemptOut)
    (judge : String → String → String → ℚ × String)
    (sid : ℕ) (desc task prompt : String) :
    List Tier → ℚ → List SubTaskAttempt → List ROIDecision → ℚ →
    List SubTaskAttempt × List ROIDecision × ℚ
  | [], _, atts, decs, cost => (atts, decs, cost)
  | tier :: rest, avail, atts, decs, cost =>
    let est := dyn_estimate_cost tier
    if est > avail then (atts, decs, cost)
    else
      let resp := llm tier prompt
      let c := actual_cost resp.prompt_tokens resp.completion_tokens tier
      let score := (judge desc resp.output task).1
      let attempt : SubTaskAttempt :=
        { tier := tier
          model := TIER_MODELS tier
          output := resp.output
          quality_score := score
          cost_dollars := c
          prompt_tokens := resp.prompt_tokens
          completion_tokens := resp.completion_tokens }
      let atts' := atts ++ [attempt]
      let cost' := cost + c
      let avail' := avail - c
      if score ≥ QUALITY_THRESHOLD then (atts', decs, cost')
      else
        match rest with
        | [] => (atts', decs, cost')
        | next :: _ =>
          let upgrade_est := dyn_estimate_cost next
          let lift := EXPECTED_LIFT tier next
          let roi := if upgrade_est > 0 then lift / upgrade_est else 0
          if MIN_ROI ≤ roi ∧ upgrade_est ≤ avail' then
            runNodeLoop llm judge sid desc task prompt rest avail' atts'
              (decs ++ [mkDecision sid tier score next upgrade_est lift roi "upgrade"])
              cost'
          else
            let dtype := if upgrade_est > avail' then "budget_exceeded" else "accept"
            (atts',
             decs ++ [mkDecision sid tier score next upgrade_est lift roi dtype],
             cost')

/-- Python's `max(attempts, key=lambda a: a.quality_score)`: the first
attempt of maximal quality score (`max` keeps the incumbent on ties). -/
def pyMaxAttempt : List SubTaskAttempt → Option SubTaskAttempt
  | [] => none
  | a :: rest =>
    some (rest.foldl
      (fun b x => if x.quality_score > b.quality_score then x else b) a)

/-- Python's `attempts.index(best)`: index of the first element equal to
`best`. -/
def pyIndex (l : List SubTaskAttempt) (a : SubTaskAttempt) : ℕ :=
  l.findIdx (fun x => decide (x = a))

/-- Assembly of one node's `SubTaskResult` from the loop outcome
(best-of-attempts choice included). -/
def mkNodeResult (sid : ℕ) (desc prompt : String)
    (atts : List SubTaskAttempt) (decs : List ROIDecision) (cost : ℚ) :
    SubTaskResult :=
  let best := pyMaxAttempt atts
  let best_idx := match best with | some b => pyIndex atts b | none => 0
  let final_tier := match best with | some b => b.tier | none => Tier.fast
  let total_prompt := (atts.map SubTaskAttempt.prompt_tokens).sum
  let total_comp := (atts.map SubTaskAttempt.completion_tokens).sum
  { subtask_id := sid
    description := desc
    tier := final_tier
    tokens_budgeted := TIER_MAX_TOKENS final_tier
    prompt_tokens := total_prompt
    completion_tokens := total_comp
    total_tokens := total_prompt + total_comp
    cost_dollars := cost
    surplus := 0
    output := match best with | some b => b.output | none => ""
    skipped := false
    prompt := prompt
    attempts := atts
    roi_decisions := decs
    final_attempt_index := best_idx }

/-- Mutable per-run state of `DynamicExecutor.execute`. -/
structure ExecState where
  outputs : List (ℕ × String)
  results : List SubTaskResult
  all_roi_decisions : List ROIDecision
  total_spent : ℚ
  upstream_spent : ℚ
  total_upgrades : ℕ

/-- The body of the `for sid in order:` loop of `DynamicExecutor.execute`. -/
def stepDyn (llm : Tier → String → AttemptOut)
    (judge : String → String → String → ℚ × String)
    (task : String) (g : TaskGraph) (budget_dollars upstream_budget : ℚ)
    (final_id : Option ℕ) (st : ExecState) (sid : ℕ) : ExecState :=
  let subtask :=
    (g.subtasks.reverse.find? (fun s => s.id == sid)).getD ⟨sid, "", .low, []⟩
  let is_final := final_id == some sid
  let available :=
    if is_final then budget_dollars - st.total_spent
    else min (upstream_budget - st.upstream_spent)
             (budget_dollars - st.total_spent)
  let prompt := build_context task subtask.description subtask.dependencies
    st.outputs
  let out := runNodeLoop llm judge sid subtask.description task prompt
    TIER_LADDER available [] [] 0
  let atts := out.1
  let decs := out.2.1
  let cost := out.2.2
  let best := pyMaxAttempt atts
  let outText := match best with | some b => b.output | none => ""
  { outputs := dictSetStr st.outputs sid outText
    results := st.results ++ [mkNodeResult sid subtask.description prompt atts decs cost]
    all_roi_decisions := st.all_roi_decisions ++ decs
    total_spent := st.total_spent + cost
    upstream_spent :=
      if is_final then st.upstream_spent else st.upstream_spent + cost
    total_upgrades := st.total_upgrades +
      (decs.filter (fun d => d.decision == "upgrade")).length }

/-- The comprehension
`[outputs[sid] for sid in order if sid in outputs and outputs[sid]]`
shared by both `_pick_deliverable` implementations. -/
def deliverableParts (order : List ℕ) (outputs : List (ℕ × String)) :
    List String :=
  order.filterMap (fun sid =>
    match outputs.find? (fun p => p.1 == sid) with
    | some p => if p.2 ≠ "" then some p.2 else none
    | none => none)

/-- `DynamicExecutor._pick_deliverable`. -/
def dynPickDeliverable (order : List ℕ) (outputs : List (ℕ × String)) :
    String :=
  if (deliverableParts order outputs).isEmpty then
    "(No output produced — budget may have been insufficient.)"
  else pyJoin "\n\n" (deliverableParts order outputs)

/-- `ExecutorAgent._pick_deliverable` (src/agents/executor.py): same logic;
the `results` parameter is unused in the body. -/
def staticPickDeliverable (order : List ℕ) (_results : List SubTaskResult)
    (outputs : List (ℕ × String)) : String :=
  if (deliverableParts order outputs).isEmpty then
    "(No output produced — budget may have been insufficient.)"
  else pyJoin "\n\n" (deliverableParts order outputs)

/-- What `DynamicExecutor.execute` produces, trimmed to the deliverable and
the fields of the `CostReport` the claims are about (the remaining report
fields are pure projections of `results` / the graph). -/
structure DynRunOutput where
  deliverable : String
  results : List SubTaskResult
  roi_decisions : List ROIDecision
  total_spent : ℚ
  total_upgrades : ℕ

/-- `DynamicExecutor.execute`, parametric in the LLM and judge oracles. -/
def executeDyn (llm : Tier → String → AttemptOut)
    (judge : String → String → String → ℚ × String)
    (task : String) (g : TaskGraph)
    (budget_dollars planner_cost_dollars : ℚ) : DynRunOutput :=
  let order := topoSort g
  let final_id := order.getLast?
  let remaining_total := budget_dollars - planner_cost_dollars
  let synthesis_reserve := remaining_total * SYNTHESIS_RESERVE_FRACTION
  let upstream_budget := remaining_total - synthesis_reserve
  let st := order.foldl
    (stepDyn llm judge task g budget_dollars upstream_budget final_id)
    ⟨[], [], [], planner_cost_dollars, 0, 0⟩
  { deliverable := dynPickDeliverable order st.outputs
    results := st.results
    roi_decisions := st.all_roi_decisions
    total_spent := st.total_spent
    total_upgrades := st.total_upgrades }

/-! ## Concrete scenario instances -/

/-- A three-node graph with two sinks of equal critical depth (2 and 3) whose
ids are out of cache-insertion order: node 3 depends on node 1 and is visited
(and cached) while computing node 1's depth, before node 2 is ever visited. -/
def g6 : TaskGraph :=
  ⟨[⟨1, "", .low, []⟩, ⟨2, "", .low, []⟩, ⟨3, "", .low, [1]⟩]⟩

/-- The same shape with the two equal-depth sinks at High complexity (Deep
tier), so the downgrade cascade has a tie to break. -/
def g6d : TaskGraph :=
  ⟨[⟨1, "", .low, []⟩, ⟨2, "", .high, []⟩, ⟨3, "", .high, [1]⟩]⟩

/-- Scenario S2: the five-node linear chain with complexities
[low, low, high, high, medium]. -/
def s2graph : TaskGraph :=
  ⟨[⟨1, "a", .low, []⟩, ⟨2, "b", .low, [1]⟩, ⟨3, "c", .high, [2]⟩,
    ⟨4, "d", .high, [3]⟩, ⟨5, "e", .medium, [4]⟩]⟩

/-- A scenario LLM oracle: every call consumes 100 prompt tokens and the
tier's full output cap. -/
def s2llm : Tier → String → AttemptOut := fun t _ => ⟨"out", 100, TIER_MAX_TOKENS t⟩

/-- A judge forced to return quality 4.0 for every attempt at every tier. -/
def s2judge : String → String → String → ℚ × String := fun _ _ _ => (4, "weak")

/-- The scenario-S6 run: dynamic executor on the S2 chain at budget $0.06
with the always-4.0 judge. -/
def s2run : DynRunOutput := executeDyn s2llm s2judge "task" s2graph (6/100) 0

/-- A single-node Low-complexity graph. -/
def g1low : TaskGraph := ⟨[⟨1, "x", .low, []⟩]⟩

/-- A minimal LLM oracle for witness runs: tiny fixed usage. -/
def wllm : Tier → String → AttemptOut := fun _ _ => ⟨"o", 1, 1⟩

/-- A judge returning 7.0 (above the 6.0 threshold) for every attempt. -/
def wjudge : String → String → String → ℚ × String := fun _ _ _ => (7, "ok")

/-- A minimal dynamic-executor run on the single-node graph. -/
def wrun : DynRunOutput := executeDyn wllm wjudge "t" g1low 1 0

/-- The plan `allocate g1low 0.00001 0` produces: pass 4 floors the single
node at 128 tokens, for an estimated cost of 4/78125 = $0.0000512. -/
def g1lowFloorPlan : ExecutionPlan :=
  { allocations := [⟨1, .fast, 128, 4/78125, false⟩]
    total_estimated_tokens := 128
    total_estimated_cost_dollars := 4/78125
    budget_dollars := 1/100000
    downgrades_applied := [.scaled] }

/-! ## Proof-side characterisations of the cascade

The three downgrade passes share one shape: walk the criticality order and,
while the total estimated cost still exceeds the remaining budget, apply a
demotion step. Because the demotion steps themselves do not depend on the
budget, passes 1–3 are equivalent to walking one fixed list of steps — the
pass-1 steps, then pass-2, then pass-3 — stopping as soon as the cost fits.
These definitions express that reformulation; its equivalence with
`runPass`/`allocate` is proved below. -/

/-- One cascade step: a state transformer. -/
abbrev AStep := AllocState → AllocState

/-- Sequential application of steps, no budget check. -/
def applySteps (σ : List AStep) (st : AllocState) : AllocState :=
  σ.foldl (fun s f => f s) st

/-- Apply steps while the total estimated cost exceeds `r`, checking before
each step. -/
def walk (r : ℚ) : List AStep → AllocState → AllocState
  | [], st => st
  | f :: σ, st => if total_cost st.1 ≤ r then st else walk r σ (f st)

/-- The number of steps `walk` applies. -/
def walkN (r : ℚ) : List AStep → AllocState → ℕ
  | [], _ => 0
  | f :: σ, st => if total_cost st.1 ≤ r then 0 else walkN r σ (f st) + 1

/-- The steps of one pass along the id order `l`. -/
def passSteps (step : AllocState → ℕ → AllocState) (l : List ℕ) : List AStep :=
  l.map (fun sid st => step st sid)

/-- The full step sequence of passes 1–3 along the id order `l`. -/
def cascadeSteps (l : List ℕ) : List AStep :=
  passSteps step1 l ++ passSteps step2 l ++ passSteps step3 l

/-- The state invariant maintained by passes 1–3: a skipped allocation holds
0 tokens, an active one holds exactly its tier's default cap, and the
estimated cost is always the cost formula of the current token count. -/
def AllocInv (l : List SubTaskAllocation) : Prop :=
  ∀ a ∈ l, (a.skipped = true → a.max_tokens = 0) ∧
    (a.skipped = false → a.max_tokens = TIER_MAX_TOKENS a.tier) ∧
    a.estimated_cost_dollars = estimate_cost a.max_tokens a.tier

/-- A step that preserves the invariant, never increases the total estimated
cost, and only appends downgrade events. -/
def GoodStep (f : AStep) : Prop :=
  ∀ st : AllocState, AllocInv st.1 →
    AllocInv (f st).1 ∧ total_cost (f st).1 ≤ total_cost st.1 ∧
    ∃ evs, (f st).2 = st.2 ++ evs

/-- Rank of a tier on the ladder Fast < Verify < Deep. -/
def tierRank : Tier → ℕ
  | .fast => 0
  | .verify => 1
  | .deep => 2

/-! ## Theorems -/

/-- C1: the specification says the evaluator exposes a `quick_score`
operation used inside the dynamic executor's inner ROI loop, and
`DynamicExecutor.execute` indeed invokes `self.evaluator.quick_score(...)`
on every attempt — but `EvaluatorAgent` defines no method of that name
(only `evaluate_subtask`, `evaluate_deliverable` and `_evaluate`), so the
attribute lookup fails (`AttributeError`) and the per-attempt scoring step
cannot complete. The claim is right about the required interface; the code
is missing it. -/
theorem quick_score_missing :
    evaluatorLookupMethod dynamicExecutorScoringMethod = none ∧
    dynamicExecutorScoringMethod ∉ EvaluatorAgentMethods := by
  decide

unseal Rat.add Rat.mul Rat.inv Rat.sub in
/-- C3: running the dynamic executor on the five-node S2 chain with budget
$0.06 and a judge returning 4.0 everywhere, every node (the terminal node
included) is attempted at Fast and then at Verify, never at Deep; the per
node ROI decisions are a Fast→Verify upgrade followed by a Verify→Deep
`budget_exceeded` decision, i.e. the Deep attempt's worst-case cost never
fits the node's available budget, so the claim's Deep clause is vacuously
satisfied; and the terminal node (id 5, last in execution order) is
attempted at Fast. -/
theorem s2_judge4_tier_ladder :
    s2run.results.map SubTaskResult.subtask_id = [1, 2, 3, 4, 5] ∧
    s2run.results.map (fun r => r.attempts.map SubTaskAttempt.tier) =
      List.replicate 5 [Tier.fast, Tier.verify] ∧
    (∀ r ∈ s2run.results, ∀ d ∈ r.roi_decisions,
      d.proposed_tier = Tier.deep → d.decision = "budget_exceeded") ∧
    s2run.results.map (fun r => r.roi_decisions.map
        (fun d => (d.current_tier, d.proposed_tier, d.decision))) =
      List.replicate 5 [(Tier.fast, Tier.verify, "upgrade"),
        (Tier.verify, Tier.deep, "budget_exceeded")] := by
  decide

unseal Rat.add Rat.mul Rat.inv Rat.sub in
/-- C6 counterexample: in `g6`, nodes 2 and 3 are both sinks (critical depth
0), yet `_criticality_order` returns [3, 2, 1] — node 3 before node 2 —
because its tie-break is the `depth_cache` dict insertion order (node 3 is
cached while computing node 1's depth, before node 2 is visited), not
ascending subtask id, which would give [2, 3, 1]. Consequently on `g6d`
(same shape, nodes 2 and 3 both Deep before demotion) the cascade demotes
node 3 while leaving the equal-criticality, smaller-id node 2 untouched. -/
theorem criticality_tiebreak_counterexample :
    cachedDepth g6 2 = cachedDepth g6 3 ∧
    criticalityOrder g6 = [3, 2, 1] ∧
    criticalityOrderSpec g6 = [2, 3, 1] ∧
    criticalityOrder g6 ≠ criticalityOrderSpec g6 ∧
    ((allocate g6d (9/100) 0).map ExecutionPlan.downgrades_applied).toOption =
      some [DowngradeEvent.deepToVerify 3] := by
  decide

unseal Rat.add Rat.mul Rat.inv Rat.sub in
/-- C8 counterexample: on a single Low node with remaining budget
$0.00001 > 0, the pass-4 fallback floors `max_tokens` at 128, leaving
an estimated cost of $0.0000512 — above the remaining budget — and
`AllocatorAgent.allocate` still returns the plan without raising: the
budget-exhausted error is raised only for `remaining ≤ 0` at entry, never
after the pass-4 fallback. -/
theorem pass4_floor_no_abort :
    (allocate g1low (1/100000) 0).toOption = some g1lowFloorPlan ∧
    ¬(g1lowFloorPlan.total_estimated_cost_dollars ≤ 1/100000 - 0) := by
  decide

/-- C8 amended: `AllocatorAgent.allocate` raises the budget-exhausted error
naming the budget and already-spent amount exactly when
`remaining = budget - spent ≤ 0` at entry; for every positive remaining it
returns a plan without error — even when the pass-4 128-token floor leaves
the total estimated cost above the remaining budget. -/
theorem budget_exhausted_iff (g : TaskGraph) (b s : ℚ) :
    (b - s ≤ 0 → allocate g b s = .error ⟨b, s⟩) ∧
    (0 < b - s → ∃ p, allocate g b s = .ok p) := by
  constructor <;> intro h
  · simp only [allocate, if_pos h]
  · exact ⟨_, by unfold allocate; rw [if_neg (not_le.mpr h)]⟩

/-- Witness for the C8 amended theorem at concrete inputs (both branches). -/
theorem budget_exhausted_iff_witness :
    allocate g1low 1 2 = .error ⟨1, 2⟩ ∧
    ∃ p, allocate g1low 2 1 = .ok p :=
  ⟨(budget_exhausted_iff g1low 1 2).1 (by norm_num),
   (budget_exhausted_iff g1low 2 1).2 (by norm_num)⟩

/-! ### Deliverable assembly (C10) -/

theorem str_append_ne_empty {s : String} (t : String) (hs : s ≠ "") :
    s ++ t ≠ "" := by
  intro h
  rw [String.ext_iff, String.data_append] at h
  exact hs (String.ext (List.append_eq_nil.mp h).1)

theorem pyJoin_ne_empty (sep : String) :
    ∀ parts : List String, parts ≠ [] → (∀ p ∈ parts, p ≠ "") →
      pyJoin sep parts ≠ ""
  | [], h, _ => absurd rfl h
  | [x], _, hp => by simpa [pyJoin] using hp x (by simp)
  | x :: y :: xs, _, hp => by
    have hx : x ≠ "" := hp x (by simp)
    show x ++ sep ++ pyJoin sep (y :: xs) ≠ ""
    exact str_append_ne_empty _ (str_append_ne_empty _ hx)

theorem mem_deliverableParts_ne_empty (order : List ℕ)
    (outputs : List (ℕ × String)) :
    ∀ s ∈ deliverableParts order outputs, s ≠ "" := by
  intro s hs
  rcases List.mem_filterMap.mp hs with ⟨sid, _, hf⟩
  rcases h : outputs.find? (fun p => p.1 == sid) with _ | p <;> rw [h] at hf <;>
    dsimp only at hf
  · simp at hf
  · by_cases hp : p.2 = ""
    · rw [if_neg (fun hne => hne hp)] at hf
      exact absurd hf (by simp)
    · rw [if_pos hp] at hf
      exact (Option.some.inj hf) ▸ hp

theorem deliverableParts_eq_nil_iff (order : List ℕ)
    (outputs : List (ℕ × String)) :
    deliverableParts order outputs = [] ↔
      ∀ sid ∈ order, dictGetStr outputs sid = "" := by
  rw [deliverableParts, List.filterMap_eq_nil_iff]
  refine forall_congr' fun sid => forall_congr' fun _ => ?_
  rcases h : outputs.find? (fun p => p.1 == sid) with _ | p <;>
    simp [dictGetStr, h]

/-- C10: in both executors the deliverable is never the empty string; the two
`_pick_deliverable` implementations agree; when every node's recorded output
is empty (skipped nodes record the empty string) the fixed placeholder text
is returned; otherwise the deliverable is the "\n\n"-separated concatenation
of the non-empty outputs in execution order. -/
theorem deliverable_nonempty (order : List ℕ) (results : List SubTaskResult)
    (outputs : List (ℕ × String)) :
    dynPickDeliverable order outputs ≠ "" ∧
    staticPickDeliverable order results outputs = dynPickDeliverable order outputs ∧
    ((∀ sid ∈ order, dictGetStr outputs sid = "") →
      dynPickDeliverable order outputs =
        "(No output produced — budget may have been insufficient.)") ∧
    (¬(∀ sid ∈ order, dictGetStr outputs sid = "") →
      dynPickDeliverable order outputs =
        pyJoin "\n\n" (deliverableParts order outputs)) := by
  refine ⟨?_, rfl, ?_, ?_⟩
  · rw [dynPickDeliverable]
    split
    · decide
    · next h =>
      exact pyJoin_ne_empty _ _ (by simpa using h)
        (mem_deliverableParts_ne_empty order outputs)
  · intro h
    rw [dynPickDeliverable, if_pos]
    simp [(deliverableParts_eq_nil_iff order outputs).mpr h]
  · intro h
    rw [dynPickDeliverable, if_neg]
    simp only [List.isEmpty_iff]
    exact fun hnil => h ((deliverableParts_eq_nil_iff order outputs).mp hnil)

/-- Witness for C10 at concrete inputs. -/
theorem deliverable_nonempty_witness :
    dynPickDeliverable [1] [] ≠ "" ∧
    dynPickDeliverable [1] [] =
      "(No output produced — budget may have been insufficient.)" ∧
    dynPickDeliverable [1, 2] [(1, "a"), (2, "b")] = pyJoin "\n\n" ["a", "b"] := by
  refine ⟨(deliverable_nonempty [1] [] []).1, ?_, ?_⟩
  · exact (deliverable_nonempty [1] [] []).2.2.1 (by decide)
  · exact ((deliverable_nonempty [1, 2] [] [(1, "a"), (2, "b")]).2.2.2
      (by decide)).trans (by decide)

/-! ### Criticality ordering (C6 amended) -/

/-- C6 amended: the downgrade passes 1–3 iterate `_criticality_order`, which
visits nodes in ascending critical-depth order (critical depth = longest
path from the node to any sink, sinks at depth 0); ties between equal-depth
nodes are broken by the memo cache's insertion order — not by ascending
subtask id (see the counterexample). Consequently a node of strictly
smaller critical depth is visited — and hence, when both are demotable,
demoted — strictly before a node of larger critical depth. -/
theorem criticality_order_sorted (g : TaskGraph) :
    (criticalityOrder g).Pairwise (fun a b => cachedDepth g a ≤ cachedDepth g b) ∧
    ∀ u v, u ∈ criticalityOrder g → v ∈ criticalityOrder g →
      cachedDepth g u < cachedDepth g v →
      (criticalityOrder g).indexOf u < (criticalityOrder g).indexOf v := by
  haveI : IsTotal ℕ (fun a b => cachedDepth g a ≤ cachedDepth g b) :=
    ⟨fun a b => le_total _ _⟩
  haveI : IsTrans ℕ (fun a b => cachedDepth g a ≤ cachedDepth g b) :=
    ⟨fun a b c => le_trans⟩
  have hs : (criticalityOrder g).Pairwise
      (fun a b => cachedDepth g a ≤ cachedDepth g b) :=
    List.sorted_insertionSort _ _
  refine ⟨hs, fun u v hu hv hlt => ?_⟩
  have hiu : (criticalityOrder g).indexOf u < (criticalityOrder g).length :=
    List.indexOf_lt_length.mpr hu
  have hiv : (criticalityOrder g).indexOf v < (criticalityOrder g).length :=
    List.indexOf_lt_length.mpr hv
  by_contra hcon
  push_neg at hcon
  rcases lt_or_eq_of_le hcon with hlt2 | heq
  · have hpw := List.pairwise_iff_getElem.mp hs _ _ hiv hiu hlt2
    rw [List.getElem_indexOf hiv, List.getElem_indexOf hiu] at hpw
    omega
  · have h1 := List.getElem_indexOf hiv
    have h2 := List.getElem_indexOf hiu
    simp only [heq] at h1
    rw [h1.symm.trans h2] at hlt
    exact lt_irrefl _ hlt

/-- Witness for the C6 amended theorem: in `g6`, node 3 (a sink, depth 0) is
visited strictly before node 1 (depth 1). -/
theorem criticality_order_sorted_witness :
    (criticalityOrder g6).indexOf 3 < (criticalityOrder g6).indexOf 1 :=
  (criticality_order_sorted g6).2 3 1 (by decide) (by decide) (by decide)

/-! ### Basic cost and floor facts -/

theorem estimate_cost_zero (t : Tier) : estimate_cost 0 t = 0 := by
  simp [estimate_cost]

theorem estimate_cost_nonneg (n : ℕ) (t : Tier) : 0 ≤ estimate_cost n t := by
  cases t <;> · simp only [estimate_cost, TIER_PRICING_PER_1M_OUTPUT]; positivity

theorem estimate_cost_mono (t : Tier) {m n : ℕ} (h : m ≤ n) :
    estimate_cost m t ≤ estimate_cost n t := by
  have hp : (0 : ℚ) ≤ TIER_PRICING_PER_1M_OUTPUT t := by
    cases t <;> norm_num [TIER_PRICING_PER_1M_OUTPUT]
  rw [estimate_cost, estimate_cost]
  have : (m : ℚ) ≤ n := by exact_mod_cast h
  apply div_le_div_of_nonneg_right _ (by norm_num)
  exact mul_le_mul_of_nonneg_right this hp

theorem ratFloorNat_cast_le {q : ℚ} (h : 0 ≤ q) : (ratFloorNat q : ℚ) ≤ q := by
  rw [ratFloorNat, ← Rat.floor_def]
  have h0 : (0 : ℤ) ≤ ⌊q⌋ := Int.floor_nonneg.mpr h
  have hc : ((⌊q⌋.toNat : ℕ) : ℚ) = ((⌊q⌋ : ℤ) : ℚ) := by
    exact_mod_cast Int.toNat_of_nonneg h0
  rw [hc]
  exact Int.floor_le q

theorem ratFloorNat_mono {q₁ q₂ : ℚ} (h : q₁ ≤ q₂) :
    ratFloorNat q₁ ≤ ratFloorNat q₂ := by
  rw [ratFloorNat, ratFloorNat, ← Rat.floor_def, ← Rat.floor_def]
  exact Int.toNat_le_toNat (Int.floor_le_floor h)

theorem ratFloorNat_le_of_le {q : ℚ} {n : ℕ} (h : q ≤ (n : ℚ)) :
    ratFloorNat q ≤ n := by
  rw [ratFloorNat, ← Rat.floor_def]
  have : ⌊q⌋ ≤ (n : ℤ) := by
    calc ⌊q⌋ ≤ ⌊(n : ℚ)⌋ := Int.floor_le_floor h
    _ = n := by rw [Int.floor_natCast]
  omega

theorem total_cost_nil : total_cost [] = 0 := rfl

theorem total_cost_cons (a : SubTaskAllocation) (l : List SubTaskAllocation) :
    total_cost (a :: l) = a.estimated_cost_dollars + total_cost l := by
  simp [total_cost]

/-! ### Invariant and monotonicity of the cascade steps -/

theorem allocInv_init (g : TaskGraph) : AllocInv (initAllocs g) := by
  intro a ha
  rcases List.mem_map.mp ha with ⟨s, _, rfl⟩
  refine ⟨fun h => by simp at h, fun _ => rfl, rfl⟩

theorem step1_goodStep (sid : ℕ) : GoodStep (fun st => step1 st sid) := by
  intro st hinv
  refine ⟨?_, ?_, ⟨_, rfl⟩⟩
  · intro a ha
    rcases List.mem_map.mp ha with ⟨b, hb, rfl⟩
    by_cases hc : (b.subtask_id == sid && b.tier == Tier.deep && !b.skipped) = true
    · rw [if_pos hc]
      simp only [Bool.and_eq_true, Bool.not_eq_true'] at hc
      exact ⟨fun h => by simp [set_tier] at h; exact absurd (h ▸ hc.2) (by simp),
        fun _ => rfl, rfl⟩
    · rw [if_neg hc]
      exact hinv b hb
  · simp only [step1, total_cost, List.map_map]
    apply List.sum_le_sum
    intro b hb
    by_cases hc : (b.subtask_id == sid && b.tier == Tier.deep && !b.skipped) = true
    · simp only [Function.comp_apply, if_pos hc]
      simp only [Bool.and_eq_true, Bool.not_eq_true', beq_iff_eq] at hc
      have h1 := (hinv b hb).2.1 hc.2
      have h2 := (hinv b hb).2.2
      rw [h2, h1, hc.1.2, set_tier]
      norm_num [estimate_cost, TIER_MAX_TOKENS, TIER_PRICING_PER_1M_OUTPUT]
    · simp only [Function.comp_apply, if_neg hc]
      exact le_refl _

theorem step2_goodStep (sid : ℕ) : GoodStep (fun st => step2 st sid) := by
  intro st hinv
  refine ⟨?_, ?_, ⟨_, rfl⟩⟩
  · intro a ha
    rcases List.mem_map.mp ha with ⟨b, hb, rfl⟩
    by_cases hc : (b.subtask_id == sid && b.tier == Tier.deep && !b.skipped) = true
    · rw [if_pos hc]
      simp only [Bool.and_eq_true, Bool.not_eq_true'] at hc
      exact ⟨fun h => by simp [set_tier] at h; exact absurd (h ▸ hc.2) (by simp),
        fun _ => rfl, rfl⟩
    · rw [if_neg hc]
      exact hinv b hb
  · simp only [step2, total_cost, List.map_map]
    apply List.sum_le_sum
    intro b hb
    by_cases hc : (b.subtask_id == sid && b.tier == Tier.deep && !b.skipped) = true
    · simp only [Function.comp_apply, if_pos hc]
      simp only [Bool.and_eq_true, Bool.not_eq_true', beq_iff_eq] at hc
      have h1 := (hinv b hb).2.1 hc.2
      have h2 := (hinv b hb).2.2
      rw [h2, h1, hc.1.2, set_tier]
      norm_num [estimate_cost, TIER_MAX_TOKENS, TIER_PRICING_PER_1M_OUTPUT]
    · simp only [Function.comp_apply, if_neg hc]
      exact le_refl _

theorem step3_goodStep (sid : ℕ) : GoodStep (fun st => step3 st sid) := by
  intro st hinv
  refine ⟨?_, ?_, ⟨_, rfl⟩⟩
  · intro a ha
    rcases List.mem_map.mp ha with ⟨b, hb, rfl⟩
    by_cases hc : (b.subtask_id == sid && b.tier == Tier.verify && !b.skipped) = true
    · rw [if_pos hc]
      exact ⟨fun _ => rfl, fun h => by simp at h, by
        simp [estimate_cost_zero]⟩
    · rw [if_neg hc]
      exact hinv b hb
  · simp only [step3, total_cost, List.map_map]
    apply List.sum_le_sum
    intro b hb
    by_cases hc : (b.subtask_id == sid && b.tier == Tier.verify && !b.skipped) = true
    · simp only [Function.comp_apply, if_pos hc]
      have h2 := (hinv b hb).2.2
      rw [h2]
      exact estimate_cost_nonneg _ _
    · simp only [Function.comp_apply, if_neg hc]
      exact le_refl _

theorem cascadeSteps_good {l : List ℕ} :
    ∀ f ∈ cascadeSteps l, GoodStep f := by
  intro f hf
  simp only [cascadeSteps, passSteps] at hf
  rcases List.mem_append.mp hf with h | h
  · rcases List.mem_append.mp h with h2 | h2
    · rcases List.mem_map.mp h2 with ⟨sid, _, rfl⟩
      exact step1_goodStep sid
    · rcases List.mem_map.mp h2 with ⟨sid, _, rfl⟩
      exact step2_goodStep sid
  · rcases List.mem_map.mp h with ⟨sid, _, rfl⟩
    exact step3_goodStep sid

/-! ### Walk and trajectory lemmas -/

theorem applySteps_nil (st : AllocState) : applySteps [] st = st := rfl

theorem applySteps_cons (f : AStep) (σ : List AStep) (st : AllocState) :
    applySteps (f :: σ) st = applySteps σ (f st) := rfl

theorem applySteps_append (σ₁ σ₂ : List AStep) (st : AllocState) :
    applySteps (σ₁ ++ σ₂) st = applySteps σ₂ (applySteps σ₁ st) := by
  simp [applySteps, List.foldl_append]

theorem applySteps_good {σ : List AStep} (hg : ∀ f ∈ σ, GoodStep f) :
    ∀ st : AllocState, AllocInv st.1 →
      AllocInv (applySteps σ st).1 ∧
      total_cost (applySteps σ st).1 ≤ total_cost st.1 ∧
      ∃ evs, (applySteps σ st).2 = st.2 ++ evs := by
  induction σ with
  | nil => exact fun st h => ⟨h, le_refl _, ⟨[], by simp [applySteps]⟩⟩
  | cons f σ ih =>
    intro st hinv
    have hf := hg f (by simp) st hinv
    have hrest := ih (fun f hf => hg f (by simp [hf])) (f st) hf.1
    rw [applySteps_cons]
    refine ⟨hrest.1, le_trans hrest.2.1 hf.2.1, ?_⟩
    rcases hf.2.2 with ⟨e1, he1⟩
    rcases hrest.2.2 with ⟨e2, he2⟩
    exact ⟨e1 ++ e2, by rw [he2, he1, List.append_assoc]⟩

theorem walk_stopped {r : ℚ} {st : AllocState} (h : total_cost st.1 ≤ r) :
    ∀ σ : List AStep, walk r σ st = st
  | [] => rfl
  | f :: σ => by rw [walk, if_pos h]

theorem walk_append (r : ℚ) (σ₁ σ₂ : List AStep) (st : AllocState) :
    walk r (σ₁ ++ σ₂) st = walk r σ₂ (walk r σ₁ st) := by
  induction σ₁ generalizing st with
  | nil => rfl
  | cons f σ₁ ih =>
    by_cases h : total_cost st.1 ≤ r
    · rw [List.cons_append, walk, if_pos h, walk, if_pos h, walk_stopped h]
    · rw [List.cons_append, walk, if_neg h, walk, if_neg h, ih]

theorem runPass_eq_walk (step : AllocState → ℕ → AllocState) (r : ℚ) :
    ∀ (l : List ℕ) (st : AllocState),
      runPass step r l st = walk r (passSteps step l) st
  | [], st => rfl
  | sid :: l, st => by
    rw [runPass, passSteps, List.map_cons, walk]
    by_cases h : total_cost st.1 ≤ r
    · rw [if_pos h, if_pos h]
    · rw [if_neg h, if_neg h, runPass_eq_walk step r l (step st sid)]
      rfl

theorem walk_eq_applySteps_take (r : ℚ) :
    ∀ (σ : List AStep) (st : AllocState),
      walk r σ st = applySteps (σ.take (walkN r σ st)) st
  | [], st => rfl
  | f :: σ, st => by
    rw [walk, walkN]
    by_cases h : total_cost st.1 ≤ r
    · rw [if_pos h, if_pos h]
      rfl
    · rw [if_neg h, if_neg h, List.take_succ_cons, applySteps_cons,
        walk_eq_applySteps_take r σ (f st)]

theorem walkN_le_length (r : ℚ) :
    ∀ (σ : List AStep) (st : AllocState), walkN r σ st ≤ σ.length
  | [], _ => le_refl 0
  | f :: σ, st => by
    rw [walkN]
    by_cases h : total_cost st.1 ≤ r
    · rw [if_pos h]; simp
    · rw [if_neg h, List.length_cons]
      exact Nat.succ_le_succ (walkN_le_length r σ (f st))

theorem walkN_anti {r₁ r₂ : ℚ} (hr : r₁ ≤ r₂) :
    ∀ (σ : List AStep) (st : AllocState), walkN r₂ σ st ≤ walkN r₁ σ st
  | [], _ => le_refl 0
  | f :: σ, st => by
    rw [walkN, walkN]
    by_cases h1 : total_cost st.1 ≤ r₁
    · rw [if_pos h1, if_pos (le_trans h1 hr)]
    · rw [if_neg h1]
      by_cases h2 : total_cost st.1 ≤ r₂
      · rw [if_pos h2]; exact Nat.zero_le _
      · rw [if_neg h2]
        exact Nat.succ_le_succ (walkN_anti hr σ (f st))

theorem walk_cost_of_lt (r : ℚ) :
    ∀ (σ : List AStep) (st : AllocState), walkN r σ st < σ.length →
      total_cost (walk r σ st).1 ≤ r
  | [], st => by intro h; simp [walkN] at h
  | f :: σ, st => by
    intro h
    rw [walk]
    by_cases hc : total_cost st.1 ≤ r
    · rw [if_pos hc]; exact hc
    · rw [if_neg hc]
      rw [walkN, if_neg hc, List.length_cons] at h
      exact walk_cost_of_lt r σ (f st) (Nat.lt_of_succ_lt_succ h)

theorem walkN_eq_length_of_over (r : ℚ) (σ : List AStep) (st : AllocState)
    (h : ¬ total_cost (walk r σ st).1 ≤ r) : walkN r σ st = σ.length := by
  rcases Nat.lt_or_ge (walkN r σ st) σ.length with hlt | hge
  · exact absurd (walk_cost_of_lt r σ st hlt) h
  · exact le_antisymm (walkN_le_length r σ st) hge

theorem take_cost_anti {σ : List AStep} (hg : ∀ f ∈ σ, GoodStep f)
    (st : AllocState) (hinv : AllocInv st.1) {k₁ k₂ : ℕ} (hk : k₂ ≤ k₁) :
    total_cost (applySteps (σ.take k₁) st).1 ≤
      total_cost (applySteps (σ.take k₂) st).1 := by
  have hsplit : σ.take k₁ = σ.take k₂ ++ (σ.drop k₂).take (k₁ - k₂) := by
    conv_lhs => rw [← Nat.add_sub_cancel' hk]
    rw [List.take_add]
  rw [hsplit, applySteps_append]
  have hg2 : ∀ f ∈ σ.take k₂, GoodStep f :=
    fun f hf => hg f (List.mem_of_mem_take hf)
  have hmid := applySteps_good hg2 st hinv
  have hg3 : ∀ f ∈ (σ.drop k₂).take (k₁ - k₂), GoodStep f :=
    fun f hf => hg f (List.mem_of_mem_drop (List.mem_of_mem_take hf))
  exact (applySteps_good hg3 _ hmid.1).2.1

theorem take_events_mono {σ : List AStep} (hg : ∀ f ∈ σ, GoodStep f)
    (st : AllocState) (hinv : AllocInv st.1) {k₁ k₂ : ℕ} (hk : k₂ ≤ k₁) :
    (applySteps (σ.take k₂) st).2.length ≤
      (applySteps (σ.take k₁) st).2.length := by
  have hsplit : σ.take k₁ = σ.take k₂ ++ (σ.drop k₂).take (k₁ - k₂) := by
    conv_lhs => rw [← Nat.add_sub_cancel' hk]
    rw [List.take_add]
  rw [hsplit, applySteps_append]
  have hg2 : ∀ f ∈ σ.take k₂, GoodStep f :=
    fun f hf => hg f (List.mem_of_mem_take hf)
  have hmid := applySteps_good hg2 st hinv
  have hg3 : ∀ f ∈ (σ.drop k₂).take (k₁ - k₂), GoodStep f :=
    fun f hf => hg f (List.mem_of_mem_drop (List.mem_of_mem_take hf))
  rcases (applySteps_good hg3 _ hmid.1).2.2 with ⟨evs, hevs⟩
  rw [hevs]
  simp

/-! ### What a completed cascade leaves behind

If the budget check never fires, pass 1 demotes every active Deep node and
pass 3 skips every active Verify node, so an allocation for an id on the
visited order that is still active afterwards is at Fast tier. -/

theorem step1_kills_deep (st : AllocState) (sid : ℕ) :
    ∀ a ∈ (step1 st sid).1, a.subtask_id = sid →
      a.tier = Tier.deep → a.skipped = true := by
  intro a ha hid htier
  rcases List.mem_map.mp ha with ⟨b, hb, rfl⟩
  by_cases hc : (b.subtask_id == sid && b.tier == Tier.deep && !b.skipped) = true
  · rw [if_pos hc] at htier ⊢
    simp [set_tier] at htier
  · rw [if_neg hc] at hid htier ⊢
    simp only [Bool.and_eq_true, Bool.not_eq_true', beq_iff_eq, not_and] at hc
    simpa using hc ⟨hid, htier⟩

theorem step3_kills_active_verify (st : AllocState) (sid : ℕ) :
    ∀ a ∈ (step3 st sid).1, a.subtask_id = sid →
      a.tier = Tier.verify → a.skipped = true := by
  intro a ha hid htier
  rcases List.mem_map.mp ha with ⟨b, hb, rfl⟩
  by_cases hc : (b.subtask_id == sid && b.tier == Tier.verify && !b.skipped) = true
  · rw [if_pos hc]
  · rw [if_neg hc] at hid htier ⊢
    simp only [Bool.and_eq_true, Bool.not_eq_true', beq_iff_eq, not_and] at hc
    simpa using hc ⟨hid, htier⟩

theorem step1_preserves_noDeep (st : AllocState) (sid tgt : ℕ)
    (h : ∀ b ∈ st.1, b.subtask_id = tgt → b.tier = Tier.deep → b.skipped = true) :
    ∀ a ∈ (step1 st sid).1, a.subtask_id = tgt →
      a.tier = Tier.deep → a.skipped = true := by
  intro a ha hid htier
  rcases List.mem_map.mp ha with ⟨b, hb, rfl⟩
  by_cases hc : (b.subtask_id == sid && b.tier == Tier.deep && !b.skipped) = true
  · rw [if_pos hc] at htier
    simp [set_tier] at htier
  · rw [if_neg hc] at hid htier ⊢
    exact h b hb hid htier

theorem step2_preserves_noDeep (st : AllocState) (sid tgt : ℕ)
    (h : ∀ b ∈ st.1, b.subtask_id = tgt → b.tier = Tier.deep → b.skipped = true) :
    ∀ a ∈ (step2 st sid).1, a.subtask_id = tgt →
      a.tier = Tier.deep → a.skipped = true := by
  intro a ha hid htier
  rcases List.mem_map.mp ha with ⟨b, hb, rfl⟩
  by_cases hc : (b.subtask_id == sid && b.tier == Tier.deep && !b.skipped) = true
  · rw [if_pos hc] at htier
    simp [set_tier] at htier
  · rw [if_neg hc] at hid htier ⊢
    exact h b hb hid htier

theorem step3_preserves_noDeep (st : AllocState) (sid tgt : ℕ)
    (h : ∀ b ∈ st.1, b.subtask_id = tgt → b.tier = Tier.deep → b.skipped = true) :
    ∀ a ∈ (step3 st sid).1, a.subtask_id = tgt →
      a.tier = Tier.deep → a.skipped = true := by
  intro a ha hid htier
  rcases List.mem_map.mp ha with ⟨b, hb, rfl⟩
  by_cases hc : (b.subtask_id == sid && b.tier == Tier.verify && !b.skipped) = true
  · rw [if_pos hc]
  · rw [if_neg hc] at hid htier ⊢
    exact h b hb hid htier

theorem step3_preserves_noActiveVerify (st : AllocState) (sid tgt : ℕ)
    (h : ∀ b ∈ st.1, b.subtask_id = tgt → b.tier = Tier.verify → b.skipped = true) :
    ∀ a ∈ (step3 st sid).1, a.subtask_id = tgt →
      a.tier = Tier.verify → a.skipped = true := by
  intro a ha hid htier
  rcases List.mem_map.mp ha with ⟨b, hb, rfl⟩
  by_cases hc : (b.subtask_id == sid && b.tier == Tier.verify && !b.skipped) = true
  · rw [if_pos hc]
  · rw [if_neg hc] at hid htier ⊢
    exact h b hb hid htier

theorem pass1_list_preserves_noDeep (tgt : ℕ) :
    ∀ (l : List ℕ) (st : AllocState),
      (∀ b ∈ st.1, b.subtask_id = tgt → b.tier = Tier.deep → b.skipped = true) →
      ∀ a ∈ (applySteps (passSteps step1 l) st).1, a.subtask_id = tgt →
        a.tier = Tier.deep → a.skipped = true
  | [], st, h => h
  | sid :: l, st, h => by
    rw [passSteps, List.map_cons, applySteps_cons]
    exact pass1_list_preserves_noDeep tgt l (step1 st sid)
      (step1_preserves_noDeep st sid tgt h)

theorem pass2_list_preserves_noDeep (tgt : ℕ) :
    ∀ (l : List ℕ) (st : AllocState),
      (∀ b ∈ st.1, b.subtask_id = tgt → b.tier = Tier.deep → b.skipped = true) →
      ∀ a ∈ (applySteps (passSteps step2 l) st).1, a.subtask_id = tgt →
        a.tier = Tier.deep → a.skipped = true
  | [], st, h => h
  | sid :: l, st, h => by
    rw [passSteps, List.map_cons, applySteps_cons]
    exact pass2_list_preserves_noDeep tgt l (step2 st sid)
      (step2_preserves_noDeep st sid tgt h)

theorem pass3_list_preserves_noDeep (tgt : ℕ) :
    ∀ (l : List ℕ) (st : AllocState),
      (∀ b ∈ st.1, b.subtask_id = tgt → b.tier = Tier.deep → b.skipped = true) →
      ∀ a ∈ (applySteps (passSteps step3 l) st).1, a.subtask_id = tgt →
        a.tier = Tier.deep → a.skipped = true
  | [], st, h => h
  | sid :: l, st, h => by
    rw [passSteps, List.map_cons, applySteps_cons]
    exact pass3_list_preserves_noDeep tgt l (step3 st sid)
      (step3_preserves_noDeep st sid tgt h)

theorem pass3_list_preserves_noActiveVerify (tgt : ℕ) :
    ∀ (l : List ℕ) (st : AllocState),
      (∀ b ∈ st.1, b.subtask_id = tgt → b.tier = Tier.verify → b.skipped = true) →
      ∀ a ∈ (applySteps (passSteps step3 l) st).1, a.subtask_id = tgt →
        a.tier = Tier.verify → a.skipped = true
  | [], st, h => h
  | sid :: l, st, h => by
    rw [passSteps, List.map_cons, applySteps_cons]
    exact pass3_list_preserves_noActiveVerify tgt l (step3 st sid)
      (step3_preserves_noActiveVerify st sid tgt h)

theorem noDeep_after_pass1 :
    ∀ (l : List ℕ) (st : AllocState),
      ∀ a ∈ (applySteps (passSteps step1 l) st).1, a.subtask_id ∈ l →
        a.tier = Tier.deep → a.skipped = true
  | [], st, a => by
    intro _ hid
    exact absurd hid (List.not_mem_nil a.subtask_id)
  | sid :: l, st, a => by
    rw [passSteps, List.map_cons, applySteps_cons]
    intro ha hid
    rcases List.mem_cons.mp hid with h | h
    · exact pass1_list_preserves_noDeep sid l (step1 st sid)
        (step1_kills_deep st sid) a ha h
    · exact noDeep_after_pass1 l (step1 st sid) a ha h

theorem noActiveVerify_after_pass3 :
    ∀ (l : List ℕ) (st : AllocState),
      ∀ a ∈ (applySteps (passSteps step3 l) st).1, a.subtask_id ∈ l →
        a.tier = Tier.verify → a.skipped = true
  | [], st, a => by
    intro _ hid
    exact absurd hid (List.not_mem_nil a.subtask_id)
  | sid :: l, st, a => by
    rw [passSteps, List.map_cons, applySteps_cons]
    intro ha hid
    rcases List.mem_cons.mp hid with h | h
    · exact pass3_list_preserves_noActiveVerify sid l (step3 st sid)
        (step3_kills_active_verify st sid) a ha h
    · exact noActiveVerify_after_pass3 l (step3 st sid) a ha h

theorem active_fast_after_cascade (l : List ℕ) (st : AllocState) :
    ∀ a ∈ (applySteps (cascadeSteps l) st).1, a.subtask_id ∈ l →
      a.skipped = false → a.tier = Tier.fast := by
  intro a ha hid hact
  have hassoc : cascadeSteps l =
      (passSteps step1 l ++ passSteps step2 l) ++ passSteps step3 l := by
    rw [cascadeSteps]
  rw [hassoc, applySteps_append, applySteps_append] at ha
  have hnd : a.tier = Tier.deep → a.skipped = true := by
    intro htier
    refine pass3_list_preserves_noDeep a.subtask_id l _ ?_ a ha rfl htier
    intro b hb hbid hbtier
    refine pass2_list_preserves_noDeep a.subtask_id l _ ?_ b hb hbid hbtier
    intro b2 hb2 hb2id hb2tier
    exact noDeep_after_pass1 l st b2 hb2 (hb2id ▸ hid) hb2tier
  have hnv : a.tier = Tier.verify → a.skipped = true :=
    fun htier => noActiveVerify_after_pass3 l _ a ha hid htier
  cases htier : a.tier with
  | fast => rfl
  | deep => exact absurd (hnd htier) (by simp [hact])
  | verify => exact absurd (hnv htier) (by simp [hact])

/-! ### Every subtask id is on the criticality order -/

theorem cacheLookup_isSome_mem {c : DepthCache} {k : ℕ}
    (h : (cacheLookup c k).isSome) : k ∈ cacheKeys c := by
  rw [cacheLookup] at h
  rcases hf : c.find? (fun p => p.1 == k) with _ | p
  · rw [hf] at h; simp at h
  · have hp := List.find?_some hf
    have hmem := List.mem_of_find?_eq_some hf
    simp only [beq_iff_eq] at hp
    rw [cacheKeys]
    exact hp ▸ List.mem_map_of_mem Prod.fst hmem

theorem mem_cacheKeys_insert_self (c : DepthCache) (k d : ℕ) :
    k ∈ cacheKeys (cacheInsert c k d) := by
  rw [cacheInsert]
  split
  · next h =>
    rcases Option.isSome_iff_exists.mp h with ⟨p, hp⟩
    have hpc := List.mem_of_find?_eq_some hp
    have hpk := List.find?_some hp
    simp only [beq_iff_eq] at hpk
    rw [cacheKeys]
    refine List.mem_map.mpr ⟨(k, d), ?_, rfl⟩
    refine List.mem_map.mpr ⟨p, hpc, ?_⟩
    rw [if_pos (by simp [hpk])]
  · rw [cacheKeys]
    exact List.mem_map.mpr ⟨(k, d), by simp, rfl⟩

theorem mem_cacheKeys_insert_of {c : DepthCache} {k' : ℕ}
    (h : k' ∈ cacheKeys c) (k d : ℕ) : k' ∈ cacheKeys (cacheInsert c k d) := by
  rw [cacheInsert]
  rcases List.mem_map.mp h with ⟨p, hp, rfl⟩
  split
  · rw [cacheKeys]
    refine List.mem_map.mpr ⟨if p.1 == k then (k, d) else p, ?_, ?_⟩
    · exact List.mem_map.mpr ⟨p, hp, rfl⟩
    · by_cases hpk : (p.1 == k) = true
      · rw [if_pos hpk]
        simp only [beq_iff_eq] at hpk
        rw [hpk]
      · rw [if_neg hpk]
  · rw [cacheKeys]
    exact List.mem_map.mpr ⟨p, List.mem_append_left _ hp, rfl⟩

theorem visitDepth_keys_mono (dep : ℕ → List ℕ) :
    ∀ (fuel : ℕ) (c : DepthCache) (sid k : ℕ), k ∈ cacheKeys c →
      k ∈ cacheKeys (visitDepth dep fuel c sid).1 := by
  intro fuel
  induction fuel with
  | zero => intro c sid k h; exact h
  | succ fuel ih =>
    intro c sid k h
    rw [visitDepth]
    rcases hl : cacheLookup c sid with _ | d
    · rcases hd : dep sid with _ | ⟨ch, rest⟩
      · exact mem_cacheKeys_insert_of h sid 0
      · have hfold : ∀ (xs : List ℕ) (acc : DepthCache × ℕ),
            k ∈ cacheKeys acc.1 →
            k ∈ cacheKeys (xs.foldl
              (fun (acc : DepthCache × ℕ) x =>
                let q := visitDepth dep fuel acc.1 x
                (q.1, max acc.2 q.2)) acc).1 := by
          intro xs
          induction xs with
          | nil => intro acc hacc; exact hacc
          | cons x xs ihx =>
            intro acc hacc
            exact ihx _ (ih acc.1 x k hacc)
        exact mem_cacheKeys_insert_of (hfold (ch :: rest) (c, 0) h) sid _
    · exact h

theorem visitDepth_self_mem (dep : ℕ → List ℕ) (fuel : ℕ) (hf : 0 < fuel)
    (c : DepthCache) (sid : ℕ) :
    sid ∈ cacheKeys (visitDepth dep fuel c sid).1 := by
  rcases fuel with _ | fuel
  · exact absurd hf (lt_irrefl 0)
  rw [visitDepth]
  rcases hl : cacheLookup c sid with _ | d
  · rcases hd : dep sid with _ | ⟨ch, rest⟩
    · exact mem_cacheKeys_insert_self c sid 0
    · exact mem_cacheKeys_insert_self _ sid _
  · exact cacheLookup_isSome_mem (by rw [hl]; rfl)

theorem buildCache_keys_mono (g : TaskGraph) :
    ∀ (l : List SubTask) (c : DepthCache) (k : ℕ), k ∈ cacheKeys c →
      k ∈ cacheKeys (l.foldl
        (fun c s => (visitDepth (dependentsOf g) (g.subtasks.length + 1) c s.id).1) c) := by
  intro l
  induction l with
  | nil => intro c k h; exact h
  | cons s l ih =>
    intro c k h
    exact ih _ k (visitDepth_keys_mono (dependentsOf g) _ c s.id k h)

theorem mem_buildCache_keys (g : TaskGraph) :
    ∀ s ∈ g.subtasks, s.id ∈ cacheKeys (buildCache g) := by
  rw [buildCache]
  have main : ∀ (l : List SubTask) (c : DepthCache), ∀ s ∈ l,
      s.id ∈ cacheKeys (l.foldl
        (fun c s => (visitDepth (dependentsOf g) (g.subtasks.length + 1) c s.id).1) c) := by
    intro l
    induction l with
    | nil => intro c s hs; exact absurd hs (List.not_mem_nil s)
    | cons s0 l ih =>
      intro c s hs
      rcases List.mem_cons.mp hs with rfl | hs'
      · rw [List.foldl_cons]
        exact buildCache_keys_mono g l _ s.id
          (visitDepth_self_mem (dependentsOf g) _ (Nat.succ_pos _) c s.id)
      · exact ih _ s hs'
  exact main g.subtasks []

theorem mem_criticalityOrder (g : TaskGraph) :
    ∀ s ∈ g.subtasks, s.id ∈ criticalityOrder g := by
  intro s hs
  rw [criticalityOrder]
  exact (List.perm_insertionSort _ _).mem_iff.mpr (mem_buildCache_keys g s hs)

/-! ### Ids are preserved by the cascade -/

theorem cascade_step_ids {l : List ℕ} :
    ∀ f ∈ cascadeSteps l, ∀ (st : AllocState), ∀ a ∈ (f st).1,
      ∃ b ∈ st.1, a.subtask_id = b.subtask_id := by
  intro f hf st a ha
  simp only [cascadeSteps, passSteps] at hf
  rcases List.mem_append.mp hf with h | h3
  · rcases List.mem_append.mp h with h1 | h2
    · rcases List.mem_map.mp h1 with ⟨sid, _, rfl⟩
      rcases List.mem_map.mp ha with ⟨b, hb, rfl⟩
      refine ⟨b, hb, ?_⟩
      split
      · rfl
      · rfl
    · rcases List.mem_map.mp h2 with ⟨sid, _, rfl⟩
      rcases List.mem_map.mp ha with ⟨b, hb, rfl⟩
      refine ⟨b, hb, ?_⟩
      split
      · rfl
      · rfl
  · rcases List.mem_map.mp h3 with ⟨sid, _, rfl⟩
    rcases List.mem_map.mp ha with ⟨b, hb, rfl⟩
    refine ⟨b, hb, ?_⟩
    split
    · rfl
    · rfl

theorem applySteps_ids {σ : List AStep}
    (hσ : ∀ f ∈ σ, ∀ (st : AllocState), ∀ a ∈ (f st).1,
      ∃ b ∈ st.1, a.subtask_id = b.subtask_id) :
    ∀ (st : AllocState) (S : List ℕ), (∀ b ∈ st.1, b.subtask_id ∈ S) →
      ∀ a ∈ (applySteps σ st).1, a.subtask_id ∈ S := by
  induction σ with
  | nil => exact fun st S h => h
  | cons f σ ih =>
    intro st S h a ha
    rw [applySteps_cons] at ha
    refine ih (fun f hf => hσ f (by simp [hf])) (f st) S ?_ a ha
    intro b hb
    rcases hσ f (by simp) st b hb with ⟨b', hb', hid⟩
    exact hid ▸ h b' hb'

theorem initAllocs_ids (g : TaskGraph) :
    ∀ b ∈ initAllocs g, b.subtask_id ∈ criticalityOrder g := by
  intro b hb
  rcases List.mem_map.mp hb with ⟨s, hs, rfl⟩
  exact mem_criticalityOrder g s hs

/-! ### Pass 4 -/

theorem total_cost_eq_active_sum :
    ∀ {l : List SubTaskAllocation}, AllocInv l →
      ((l.filter (fun a => !a.skipped)).map
        SubTaskAllocation.estimated_cost_dollars).sum = total_cost l
  | [], _ => rfl
  | a :: l, hinv => by
    have hh := hinv a (by simp)
    have ht : AllocInv l := fun b hb => hinv b (by simp [hb])
    rcases ha : a.skipped with _ | _
    · rw [List.filter_cons_of_pos (by simp [ha]), List.map_cons, List.sum_cons,
        total_cost_cons, total_cost_eq_active_sum ht]
    · rw [List.filter_cons_of_neg (by simp [ha]), total_cost_cons,
        total_cost_eq_active_sum ht]
      have : a.estimated_cost_dollars = 0 := by
        rw [hh.2.2, hh.1 ha, estimate_cost_zero]
      rw [this, zero_add]

theorem pass4_eq_of_le (r : ℚ) (st : AllocState)
    (h : total_cost st.1 ≤ r) : pass4 r st = st := by
  rw [pass4, if_neg (not_lt.mpr h)]

theorem pass4_entered_eq (r : ℚ) (st : AllocState)
    (hgt : total_cost st.1 > r)
    (hpos : 0 < ((st.1.filter (fun a => !a.skipped)).map
      SubTaskAllocation.estimated_cost_dollars).sum) :
    pass4 r st =
      (st.1.map (fun a =>
          if a.skipped then a
          else
            let newMax := max 128 (ratFloorNat ((a.max_tokens : ℚ) *
              (r / ((st.1.filter (fun a => !a.skipped)).map
                SubTaskAllocation.estimated_cost_dollars).sum)))
            { a with max_tokens := newMax
                     estimated_cost_dollars := estimate_cost newMax a.tier }),
       st.2 ++ [DowngradeEvent.scaled]) := by
  rw [pass4, if_pos hgt]
  simp only []
  rw [if_pos hpos]

/-! ### C2: the plan dominates the budget -/

/-- C2: for every task graph, budget, and spent amount for which
`AllocatorAgent.allocate` returns a plan (that is, with positive remaining
budget), the plan's total estimated cost fits the remaining budget, or else
every non-skipped allocation sits at exactly the 128-token floor. -/
theorem plan_dominates_budget (g : TaskGraph) (b s : ℚ) (p : ExecutionPlan)
    (h : allocate g b s = .ok p) :
    p.total_estimated_cost_dollars ≤ b - s ∨
      ∀ a ∈ p.allocations, a.skipped = false → a.max_tokens = 128 := by
  by_cases hr : b - s ≤ 0
  · rw [allocate] at h
    rw [if_pos hr] at h
    cases h
  rw [allocate] at h
  rw [if_neg hr] at h
  have hr0 : 0 < b - s := not_le.mp hr
  obtain rfl := (Except.ok.inj h).symm
  set r := b - s with hrdef
  set ord := criticalityOrder g with hord
  set st3 := runPass step3 r ord (runPass step2 r ord
    (runPass step1 r ord (initAllocs g, []))) with hst3
  show total_cost (pass4 r st3).1 ≤ r ∨
    ∀ a ∈ (pass4 r st3).1, a.skipped = false → a.max_tokens = 128
  by_cases hc3 : total_cost st3.1 ≤ r
  · left
    show total_cost (pass4 r st3).1 ≤ r
    rw [pass4_eq_of_le r st3 hc3]
    exact hc3
  · have hgt : total_cost st3.1 > r := not_le.mp hc3
    have hwalk : st3 = walk r (cascadeSteps ord) (initAllocs g, []) := by
      rw [hst3, runPass_eq_walk, runPass_eq_walk, runPass_eq_walk,
        cascadeSteps, walk_append, walk_append]
    have hN : walkN r (cascadeSteps ord) (initAllocs g, []) =
        (cascadeSteps ord).length :=
      walkN_eq_length_of_over r _ _ (by rw [← hwalk]; exact hc3)
    have hfull : st3 = applySteps (cascadeSteps ord) (initAllocs g, []) := by
      rw [hwalk, walk_eq_applySteps_take, hN, List.take_length]
    have hinv0 : AllocInv (initAllocs g, ([] : List DowngradeEvent)).1 :=
      allocInv_init g
    have hinv3 : AllocInv st3.1 := by
      rw [hfull]
      exact (applySteps_good cascadeSteps_good _ hinv0).1
    have hids : ∀ a ∈ st3.1, a.subtask_id ∈ ord := by
      rw [hfull]
      exact applySteps_ids cascade_step_ids _ ord (initAllocs_ids g)
    have hfast : ∀ a ∈ st3.1, a.skipped = false → a.tier = Tier.fast := by
      rw [hfull]
      intro a ha hact
      exact active_fast_after_cascade ord _ a ha
        (applySteps_ids cascade_step_ids _ ord (initAllocs_ids g) a ha) hact
    have hcur : ((st3.1.filter (fun a => !a.skipped)).map
        SubTaskAllocation.estimated_cost_dollars).sum = total_cost st3.1 :=
      total_cost_eq_active_sum hinv3
    have hcurpos : 0 < ((st3.1.filter (fun a => !a.skipped)).map
        SubTaskAllocation.estimated_cost_dollars).sum := by
      rw [hcur]; exact lt_trans hr0 hgt
    set cur := ((st3.1.filter (fun a => !a.skipped)).map
      SubTaskAllocation.estimated_cost_dollars).sum with hcurdef
    set scale := r / cur with hscale
    have hscalepos : 0 < scale := div_pos hr0 hcurpos
    have hscalew : (0 : ℚ) ≤ 2048 * scale := by positivity
    rw [pass4_entered_eq r st3 hgt hcurpos]
    set w := ratFloorNat ((2048 : ℚ) * scale) with hwdef
    by_cases hw : 128 ≤ w
    · left
      show total_cost _ ≤ r
      rw [total_cost, List.map_map]
      have hstep : ∀ a ∈ st3.1,
          (SubTaskAllocation.estimated_cost_dollars ∘ fun a =>
            if a.skipped then a
            else
              let newMax := max 128 (ratFloorNat ((a.max_tokens : ℚ) * (r / cur)))
              { a with max_tokens := newMax
                       estimated_cost_dollars := estimate_cost newMax a.tier }) a ≤
          scale * a.estimated_cost_dollars := by
        intro a ha
        have hia := hinv3 a ha
        rcases hsk : a.skipped with _ | _
        · simp only [Function.comp_apply, hsk, Bool.false_eq_true, if_false]
          have hmax : a.max_tokens = TIER_MAX_TOKENS a.tier := hia.2.1 hsk
          have htier : a.tier = Tier.fast := hfast a ha hsk
          have hcosta : a.estimated_cost_dollars = estimate_cost 2048 Tier.fast := by
            rw [hia.2.2, hmax, htier]
            rfl
          have hm2048 : (a.max_tokens : ℚ) = 2048 := by
            rw [hmax, htier]; rfl
          rw [hm2048, ← hscale, ← hwdef, Nat.max_eq_right hw, hcosta, htier]
          rw [estimate_cost, estimate_cost]
          rw [div_le_iff₀ (by norm_num), TIER_PRICING_PER_1M_OUTPUT]
          have hfl : (w : ℚ) ≤ 2048 * scale := by
            rw [hwdef]
            exact ratFloorNat_cast_le hscalew
          nlinarith [hfl, hscalepos.le]
        · simp only [Function.comp_apply, hsk, if_true]
          have hz : a.estimated_cost_dollars = 0 := by
            rw [hia.2.2, hia.1 hsk, estimate_cost_zero]
          rw [hz, mul_zero]
      calc (st3.1.map _).sum
          ≤ (st3.1.map (fun a => scale * a.estimated_cost_dollars)).sum :=
            List.sum_le_sum hstep
        _ = scale * total_cost st3.1 := by
            rw [total_cost, List.sum_map_mul_left]
        _ = (r / cur) * cur := by rw [hscale, hcur]
        _ = r := div_mul_cancel₀ r (ne_of_gt hcurpos)
    · right
      intro a ha hact
      rcases List.mem_map.mp ha with ⟨b, hb, rfl⟩
      by_cases hsk : b.skipped = true
      · rw [if_pos hsk] at hact
        rw [hact] at hsk
        exact absurd hsk (by simp)
      · have hskf : b.skipped = false := by simpa using hsk
        rw [if_neg hsk]
        have hmax : b.max_tokens = TIER_MAX_TOKENS b.tier := (hinv3 b hb).2.1 hskf
        have htier : b.tier = Tier.fast := hfast b hb hskf
        have hm2048 : (b.max_tokens : ℚ) = 2048 := by rw [hmax, htier]; rfl
        show max 128 (ratFloorNat ((b.max_tokens : ℚ) * (r / cur))) = 128
        rw [hm2048, ← hscale, ← hwdef]
        exact Nat.max_eq_left (le_of_not_le hw)

unseal Rat.add Rat.mul Rat.inv Rat.sub in
/-- Witness for C2 at a concrete input (the pass-4 floor case). -/
theorem plan_dominates_budget_witness :
    g1lowFloorPlan.total_estimated_cost_dollars ≤ 1/100000 - 0 ∨
      ∀ a ∈ g1lowFloorPlan.allocations, a.skipped = false → a.max_tokens = 128 :=
  plan_dominates_budget g1low (1/100000) 0 g1lowFloorPlan (by rfl)

/-! ### C9: per-allocation invariants of every returned plan -/

theorem cascade_step_length {l : List ℕ} :
    ∀ f ∈ cascadeSteps l, ∀ st : AllocState, (f st).1.length = st.1.length := by
  intro f hf st
  simp only [cascadeSteps, passSteps] at hf
  rcases List.mem_append.mp hf with h | h3
  · rcases List.mem_append.mp h with h1 | h2
    · rcases List.mem_map.mp h1 with ⟨sid, _, rfl⟩
      exact List.length_map _ _
    · rcases List.mem_map.mp h2 with ⟨sid, _, rfl⟩
      exact List.length_map _ _
  · rcases List.mem_map.mp h3 with ⟨sid, _, rfl⟩
    exact List.length_map _ _

theorem step1_rank (st : AllocState) (sid : ℕ) (i : ℕ)
    (h1 : i < (step1 st sid).1.length) (h2 : i < st.1.length) :
    tierRank ((step1 st sid).1[i]).tier ≤ tierRank (st.1[i]).tier := by
  simp only [step1, List.getElem_map]
  split
  · next hc =>
    simp only [Bool.and_eq_true, beq_iff_eq] at hc
    rw [hc.1.2, set_tier]
    exact le_of_lt (by norm_num [tierRank])
  · exact le_refl _

theorem step2_rank (st : AllocState) (sid : ℕ) (i : ℕ)
    (h1 : i < (step2 st sid).1.length) (h2 : i < st.1.length) :
    tierRank ((step2 st sid).1[i]).tier ≤ tierRank (st.1[i]).tier := by
  simp only [step2, List.getElem_map]
  split
  · next hc =>
    simp only [Bool.and_eq_true, beq_iff_eq] at hc
    rw [hc.1.2, set_tier]
    exact le_of_lt (by norm_num [tierRank])
  · exact le_refl _

theorem step3_rank (st : AllocState) (sid : ℕ) (i : ℕ)
    (h1 : i < (step3 st sid).1.length) (h2 : i < st.1.length) :
    tierRank ((step3 st sid).1[i]).tier ≤ tierRank (st.1[i]).tier := by
  simp only [step3, List.getElem_map]
  split
  · exact le_refl _
  · exact le_refl _

theorem cascade_step_rank {l : List ℕ} :
    ∀ f ∈ cascadeSteps l, ∀ (st : AllocState) (i : ℕ)
      (h1 : i < (f st).1.length) (h2 : i < st.1.length),
      tierRank ((f st).1[i]).tier ≤ tierRank (st.1[i]).tier := by
  intro f hf st i h1 h2
  simp only [cascadeSteps, passSteps] at hf
  rcases List.mem_append.mp hf with h | h3
  · rcases List.mem_append.mp h with hm | hm
    · rcases List.mem_map.mp hm with ⟨sid, _, rfl⟩
      exact step1_rank st sid i h1 h2
    · rcases List.mem_map.mp hm with ⟨sid, _, rfl⟩
      exact step2_rank st sid i h1 h2
  · rcases List.mem_map.mp h3 with ⟨sid, _, rfl⟩
    exact step3_rank st sid i h1 h2

theorem applySteps_rank {σ : List AStep}
    (hlen : ∀ f ∈ σ, ∀ st : AllocState, (f st).1.length = st.1.length)
    (hrank : ∀ f ∈ σ, ∀ (st : AllocState) (i : ℕ)
      (h1 : i < (f st).1.length) (h2 : i < st.1.length),
      tierRank ((f st).1[i]).tier ≤ tierRank (st.1[i]).tier) :
    ∀ (st : AllocState),
      (applySteps σ st).1.length = st.1.length ∧
      ∀ (i : ℕ) (h1 : i < (applySteps σ st).1.length) (h2 : i < st.1.length),
        tierRank ((applySteps σ st).1[i]).tier ≤ tierRank (st.1[i]).tier := by
  induction σ with
  | nil => exact fun st => ⟨rfl, fun i h1 h2 => le_refl _⟩
  | cons f σ ih =>
    intro st
    have hfl := hlen f (by simp) st
    have ihr := ih (fun f hf => hlen f (by simp [hf]))
      (fun f hf => hrank f (by simp [hf])) (f st)
    rw [applySteps_cons]
    refine ⟨ihr.1.trans hfl, fun i h1 h2 => ?_⟩
    have hif : i < (f st).1.length := by omega
    exact le_trans (ihr.2 i h1 hif) (hrank f (by simp) st i hif h2)

theorem initAllocs_length (g : TaskGraph) :
    (initAllocs g).length = g.subtasks.length := List.length_map _ _

theorem initAllocs_rank (g : TaskGraph) (i : ℕ)
    (h1 : i < (initAllocs g).length) (h2 : i < g.subtasks.length) :
    ((initAllocs g)[i]).tier = COMPLEXITY_TO_TIER (g.subtasks[i]).complexity := by
  simp only [initAllocs, List.getElem_map]

theorem initAllocs_id_pos (g : TaskGraph) (i : ℕ)
    (h1 : i < (initAllocs g).length) (h2 : i < g.subtasks.length) :
    ((initAllocs g)[i]).subtask_id = (g.subtasks[i]).id := by
  simp only [initAllocs, List.getElem_map]

theorem tier_cap_ge_128 (t : Tier) : 128 ≤ TIER_MAX_TOKENS t := by
  cases t <;> norm_num [TIER_MAX_TOKENS]

/-- The relaxed per-allocation invariant that also survives pass 4. -/
theorem pass4_relaxed_inv (r : ℚ) (st : AllocState) (hr : 0 < r)
    (hinv : AllocInv st.1) :
    ∀ a ∈ (pass4 r st).1,
      (a.skipped = true → a.max_tokens = 0) ∧
      a.max_tokens ≤ TIER_MAX_TOKENS a.tier ∧
      a.estimated_cost_dollars = estimate_cost a.max_tokens a.tier := by
  by_cases hle : total_cost st.1 ≤ r
  · rw [pass4_eq_of_le r st hle]
    intro a ha
    have h := hinv a ha
    refine ⟨h.1, ?_, h.2.2⟩
    rcases hsk : a.skipped with _ | _
    · rw [h.2.1 hsk]
    · rw [h.1 hsk]
      exact Nat.zero_le _
  · have hgt : total_cost st.1 > r := not_le.mp hle
    have hcur : ((st.1.filter (fun a => !a.skipped)).map
        SubTaskAllocation.estimated_cost_dollars).sum = total_cost st.1 :=
      total_cost_eq_active_sum hinv
    have hcurpos : 0 < ((st.1.filter (fun a => !a.skipped)).map
        SubTaskAllocation.estimated_cost_dollars).sum := by
      rw [hcur]; exact lt_trans hr hgt
    rw [pass4_entered_eq r st hgt hcurpos]
    intro a ha
    rcases List.mem_map.mp ha with ⟨b, hb, rfl⟩
    have h := hinv b hb
    by_cases hsk : b.skipped = true
    · rw [if_pos hsk]
      refine ⟨h.1, ?_, h.2.2⟩
      rw [h.1 hsk]
      exact Nat.zero_le _
    · have hskf : b.skipped = false := by simpa using hsk
      rw [if_neg hsk]
      have hscale1 : r / ((st.1.filter (fun a => !a.skipped)).map
          SubTaskAllocation.estimated_cost_dollars).sum ≤ 1 := by
        rw [div_le_one hcurpos, hcur]
        exact le_of_lt hgt
      have hscale0 : 0 ≤ r / ((st.1.filter (fun a => !a.skipped)).map
          SubTaskAllocation.estimated_cost_dollars).sum :=
        le_of_lt (div_pos hr hcurpos)
      refine ⟨fun hcontra => absurd (hskf ▸ hcontra) (by simp), ?_, rfl⟩
      show max 128 (ratFloorNat _) ≤ TIER_MAX_TOKENS b.tier
      have hmax : b.max_tokens = TIER_MAX_TOKENS b.tier := h.2.1 hskf
      refine max_le (hmax ▸ tier_cap_ge_128 b.tier) ?_
      refine le_trans (ratFloorNat_le_of_le ?_) (le_of_eq hmax)
      calc (b.max_tokens : ℚ) * (r / _) ≤ (b.max_tokens : ℚ) * 1 :=
            mul_le_mul_of_nonneg_left hscale1 (by positivity)
        _ = (b.max_tokens : ℚ) := mul_one _

theorem pass4_not_pos_eq (r : ℚ) (st : AllocState)
    (hpos : ¬ 0 < ((st.1.filter (fun a => !a.skipped)).map
      SubTaskAllocation.estimated_cost_dollars).sum) :
    pass4 r st = st := by
  rw [pass4]
  split
  · simp only []
    rw [if_neg hpos]
  · rfl

theorem pass4_length (r : ℚ) (st : AllocState) :
    (pass4 r st).1.length = st.1.length := by
  by_cases hgt : total_cost st.1 > r
  · by_cases hpos : 0 < ((st.1.filter (fun a => !a.skipped)).map
      SubTaskAllocation.estimated_cost_dollars).sum
    · rw [pass4_entered_eq r st hgt hpos]
      exact List.length_map _ _
    · rw [pass4_not_pos_eq r st hpos]
  · rw [pass4_eq_of_le r st (not_lt.mp hgt)]

theorem pass4_tier_pos (r : ℚ) (st : AllocState) (i : ℕ)
    (h1 : i < (pass4 r st).1.length) (h2 : i < st.1.length) :
    ((pass4 r st).1[i]).tier = (st.1[i]).tier := by
  by_cases hgt : total_cost st.1 > r
  · by_cases hpos : 0 < ((st.1.filter (fun a => !a.skipped)).map
      SubTaskAllocation.estimated_cost_dollars).sum
    · simp only [pass4_entered_eq r st hgt hpos, List.getElem_map]
      split
      · rfl
      · rfl
    · simp only [pass4_not_pos_eq r st hpos]
  · simp only [pass4_eq_of_le r st (not_lt.mp hgt)]

/-- C9: every plan returned by the allocator satisfies, allocation by
allocation (in the order of `graph.subtasks`): the tier never exceeds the
node's complexity-default tier on the ladder Fast < Verify < Deep, the token
cap never exceeds the assigned tier's default cap, the estimated cost is
exactly `max_tokens × tier output price / 1e6`, and a skipped allocation has
`max_tokens = 0` and estimated cost 0. -/
theorem plan_allocation_invariants (g : TaskGraph) (b s : ℚ)
    (p : ExecutionPlan) (h : allocate g b s = .ok p) :
    p.allocations.length = g.subtasks.length ∧
    ∀ (i : ℕ) (hi : i < p.allocations.length) (hg : i < g.subtasks.length),
      tierRank (p.allocations[i]).tier ≤
        tierRank (COMPLEXITY_TO_TIER (g.subtasks[i]).complexity) ∧
      (p.allocations[i]).max_tokens ≤ TIER_MAX_TOKENS (p.allocations[i]).tier ∧
      (p.allocations[i]).estimated_cost_dollars =
        estimate_cost (p.allocations[i]).max_tokens (p.allocations[i]).tier ∧
      ((p.allocations[i]).skipped = true → (p.allocations[i]).max_tokens = 0 ∧
        (p.allocations[i]).estimated_cost_dollars = 0) := by
  by_cases hr : b - s ≤ 0
  · rw [allocate] at h
    rw [if_pos hr] at h
    cases h
  rw [allocate] at h
  rw [if_neg hr] at h
  have hr0 : 0 < b - s := not_le.mp hr
  obtain rfl := (Except.ok.inj h).symm
  set r := b - s with hrdef
  set ord := criticalityOrder g with hord
  set st3 := runPass step3 r ord (runPass step2 r ord
    (runPass step1 r ord (initAllocs g, []))) with hst3
  show (pass4 r st3).1.length = g.subtasks.length ∧
    ∀ (i : ℕ) (hi : i < (pass4 r st3).1.length) (hg : i < g.subtasks.length),
      tierRank ((pass4 r st3).1[i]).tier ≤
        tierRank (COMPLEXITY_TO_TIER (g.subtasks[i]).complexity) ∧
      ((pass4 r st3).1[i]).max_tokens ≤ TIER_MAX_TOKENS ((pass4 r st3).1[i]).tier ∧
      ((pass4 r st3).1[i]).estimated_cost_dollars =
        estimate_cost ((pass4 r st3).1[i]).max_tokens ((pass4 r st3).1[i]).tier ∧
      (((pass4 r st3).1[i]).skipped = true → ((pass4 r st3).1[i]).max_tokens = 0 ∧
        ((pass4 r st3).1[i]).estimated_cost_dollars = 0)
  -- passes 1–3 reach st3 along a prefix of the cascade trajectory
  have hwalk : st3 = walk r (cascadeSteps ord) (initAllocs g, []) := by
    rw [hst3, runPass_eq_walk, runPass_eq_walk, runPass_eq_walk,
      cascadeSteps, walk_append, walk_append]
  have htake : st3 = applySteps ((cascadeSteps ord).take
      (walkN r (cascadeSteps ord) (initAllocs g, []))) (initAllocs g, []) := by
    rw [hwalk, walk_eq_applySteps_take]
  set σ := (cascadeSteps ord).take
    (walkN r (cascadeSteps ord) (initAllocs g, [])) with hσ
  have hσsub : ∀ f ∈ σ, f ∈ cascadeSteps ord :=
    fun f hf => List.mem_of_mem_take hf
  have hinv3 : AllocInv st3.1 := by
    rw [htake]
    exact (applySteps_good (fun f hf => cascadeSteps_good f (hσsub f hf)) _
      (allocInv_init g)).1
  have hranks := applySteps_rank
    (fun f hf => cascade_step_length f (hσsub f hf))
    (fun f hf => cascade_step_rank f (hσsub f hf))
    (initAllocs g, [])
  have hlen3 : st3.1.length = g.subtasks.length := by
    rw [htake]
    exact hranks.1.trans (initAllocs_length g)
  have hrelax := pass4_relaxed_inv r st3 hr0 hinv3
  have hlen4 : (pass4 r st3).1.length = st3.1.length := pass4_length r st3
  refine ⟨hlen4.trans hlen3, fun i hi hg => ?_⟩
  have hi3 : i < st3.1.length := by omega
  have hii : i < (initAllocs g).length := by
    rw [initAllocs_length]; exact hg
  have hmem : (pass4 r st3).1[i] ∈ (pass4 r st3).1 := List.getElem_mem _
  have hrel := hrelax _ hmem
  refine ⟨?_, hrel.2.1, hrel.2.2, fun hsk => ⟨hrel.1 hsk, ?_⟩⟩
  · have heqt : ((pass4 r st3).1[i]).tier = (st3.1[i]).tier :=
      pass4_tier_pos r st3 i hi hi3
    rw [heqt]
    have h1' : i < (applySteps σ (initAllocs g, [])).1.length := by
      rw [← htake]
      exact hi3
    have hle := hranks.2 i h1' hii
    simp only [← htake] at hle
    calc tierRank (st3.1[i]).tier
        ≤ tierRank ((initAllocs g)[i]).tier := hle
      _ = tierRank (COMPLEXITY_TO_TIER (g.subtasks[i]).complexity) := by
          rw [initAllocs_rank g i hii hg]
  · rw [hrel.2.2, hrel.1 hsk, estimate_cost_zero]

unseal Rat.add Rat.mul Rat.inv Rat.sub in
/-- Witness for C9 at a concrete input. -/
theorem plan_allocation_invariants_witness :
    g1lowFloorPlan.allocations.length = g1low.subtasks.length ∧
    ∀ (i : ℕ) (hi : i < g1lowFloorPlan.allocations.length)
      (hg : i < g1low.subtasks.length),
      tierRank (g1lowFloorPlan.allocations[i]).tier ≤
        tierRank (COMPLEXITY_TO_TIER (g1low.subtasks[i]).complexity) ∧
      (g1lowFloorPlan.allocations[i]).max_tokens ≤
        TIER_MAX_TOKENS (g1lowFloorPlan.allocations[i]).tier ∧
      (g1lowFloorPlan.allocations[i]).estimated_cost_dollars =
        estimate_cost (g1lowFloorPlan.allocations[i]).max_tokens
          (g1lowFloorPlan.allocations[i]).tier ∧
      ((g1lowFloorPlan.allocations[i]).skipped = true →
        (g1lowFloorPlan.allocations[i]).max_tokens = 0 ∧
        (g1lowFloorPlan.allocations[i]).estimated_cost_dollars = 0) :=
  plan_allocation_invariants g1low (1/100000) 0 g1lowFloorPlan (by rfl)

/-! ### C7: cascade monotonicity in the remaining budget -/

theorem pass4_total_le (r : ℚ) (st : AllocState) (hr : 0 < r)
    (hinv : AllocInv st.1) :
    total_cost (pass4 r st).1 ≤ total_cost st.1 := by
  by_cases hgt : total_cost st.1 > r
  · by_cases hpos : 0 < ((st.1.filter (fun a => !a.skipped)).map
      SubTaskAllocation.estimated_cost_dollars).sum
    · rw [pass4_entered_eq r st hgt hpos]
      show total_cost _ ≤ total_cost st.1
      rw [total_cost, total_cost, List.map_map]
      apply List.sum_le_sum
      intro a ha
      have h := hinv a ha
      simp only [Function.comp_apply]
      by_cases hsk : a.skipped = true
      · rw [if_pos hsk]
      · have hskf : a.skipped = false := by simpa using hsk
        rw [if_neg hsk]
        have hmax : a.max_tokens = TIER_MAX_TOKENS a.tier := h.2.1 hskf
        have hscale1 : r / ((st.1.filter (fun a => !a.skipped)).map
            SubTaskAllocation.estimated_cost_dollars).sum ≤ 1 := by
          rw [div_le_one hpos, total_cost_eq_active_sum hinv]
          exact le_of_lt hgt
        show estimate_cost (max 128 (ratFloorNat _)) a.tier ≤
          a.estimated_cost_dollars
        rw [h.2.2]
        apply estimate_cost_mono
        refine max_le (hmax ▸ tier_cap_ge_128 a.tier) ?_
        apply ratFloorNat_le_of_le
        calc (a.max_tokens : ℚ) * (r / _) ≤ (a.max_tokens : ℚ) * 1 :=
              mul_le_mul_of_nonneg_left hscale1 (by positivity)
          _ = (a.max_tokens : ℚ) := mul_one _
    · rw [pass4_not_pos_eq r st hpos]
  · rw [pass4_eq_of_le r st (not_lt.mp hgt)]

theorem pass4_total_mono (st : AllocState) (r₁ r₂ : ℚ) (h1 : 0 < r₁)
    (hle : r₁ ≤ r₂) (hgt2 : total_cost st.1 > r₂) (hinv : AllocInv st.1) :
    total_cost (pass4 r₁ st).1 ≤ total_cost (pass4 r₂ st).1 := by
  have hgt1 : total_cost st.1 > r₁ := lt_of_le_of_lt hle hgt2
  have hcur : ((st.1.filter (fun a => !a.skipped)).map
      SubTaskAllocation.estimated_cost_dollars).sum = total_cost st.1 :=
    total_cost_eq_active_sum hinv
  have hpos : 0 < ((st.1.filter (fun a => !a.skipped)).map
      SubTaskAllocation.estimated_cost_dollars).sum := by
    rw [hcur]; exact lt_trans h1 hgt1
  rw [pass4_entered_eq r₁ st hgt1 hpos, pass4_entered_eq r₂ st hgt2 hpos]
  show total_cost _ ≤ total_cost _
  rw [total_cost, total_cost, List.map_map, List.map_map]
  apply List.sum_le_sum
  intro a ha
  simp only [Function.comp_apply]
  by_cases hsk : a.skipped = true
  · rw [if_pos hsk, if_pos hsk]
  · rw [if_neg hsk, if_neg hsk]
    show estimate_cost _ a.tier ≤ estimate_cost _ a.tier
    apply estimate_cost_mono
    apply max_le_max (le_refl 128)
    apply ratFloorNat_mono
    apply mul_le_mul_of_nonneg_left _ (by positivity)
    gcongr

/-- C7: for the same graph and spent amount, a strictly smaller remaining
budget never yields a plan of higher total estimated cost and never records
fewer downgrade events. -/
theorem cascade_monotone (g : TaskGraph) (spent b₁ b₂ : ℚ)
    (p₁ p₂ : ExecutionPlan)
    (h₁ : allocate g b₁ spent = .ok p₁) (h₂ : allocate g b₂ spent = .ok p₂)
    (hlt : b₁ - spent < b₂ - spent) :
    p₁.total_estimated_cost_dollars ≤ p₂.total_estimated_cost_dollars ∧
    p₂.downgrades_applied.length ≤ p₁.downgrades_applied.length := by
  by_cases hr1 : b₁ - spent ≤ 0
  · rw [allocate] at h₁
    rw [if_pos hr1] at h₁
    cases h₁
  by_cases hr2 : b₂ - spent ≤ 0
  · rw [allocate] at h₂
    rw [if_pos hr2] at h₂
    cases h₂
  rw [allocate] at h₁ h₂
  rw [if_neg hr1] at h₁
  rw [if_neg hr2] at h₂
  have hr10 : 0 < b₁ - spent := not_le.mp hr1
  have hr20 : 0 < b₂ - spent := not_le.mp hr2
  obtain rfl := (Except.ok.inj h₁).symm
  obtain rfl := (Except.ok.inj h₂).symm
  set r₁ := b₁ - spent with hr1def
  set r₂ := b₂ - spent with hr2def
  set ord := criticalityOrder g with hord
  set st31 := runPass step3 r₁ ord (runPass step2 r₁ ord
    (runPass step1 r₁ ord (initAllocs g, []))) with hst31
  set st32 := runPass step3 r₂ ord (runPass step2 r₂ ord
    (runPass step1 r₂ ord (initAllocs g, []))) with hst32
  show total_cost (pass4 r₁ st31).1 ≤ total_cost (pass4 r₂ st32).1 ∧
    (pass4 r₂ st32).2.length ≤ (pass4 r₁ st31).2.length
  set σ := cascadeSteps ord with hσ
  set init : AllocState := (initAllocs g, []) with hinit
  have hinv0 : AllocInv init.1 := allocInv_init g
  have hw1 : st31 = walk r₁ σ init := by
    rw [hst31, runPass_eq_walk, runPass_eq_walk, runPass_eq_walk,
      hσ, cascadeSteps, walk_append, walk_append]
  have hw2 : st32 = walk r₂ σ init := by
    rw [hst32, runPass_eq_walk, runPass_eq_walk, runPass_eq_walk,
      hσ, cascadeSteps, walk_append, walk_append]
  set k₁ := walkN r₁ σ init with hk1
  set k₂ := walkN r₂ σ init with hk2
  have hkk : k₂ ≤ k₁ := walkN_anti (le_of_lt hlt) σ init
  have ht1 : st31 = applySteps (σ.take k₁) init := by
    rw [hw1, walk_eq_applySteps_take]
  have ht2 : st32 = applySteps (σ.take k₂) init := by
    rw [hw2, walk_eq_applySteps_take]
  have hg1 : ∀ f ∈ σ.take k₁, GoodStep f :=
    fun f hf => cascadeSteps_good f (List.mem_of_mem_take hf)
  have hg2 : ∀ f ∈ σ.take k₂, GoodStep f :=
    fun f hf => cascadeSteps_good f (List.mem_of_mem_take hf)
  have hinv1 : AllocInv st31.1 := by
    rw [ht1]; exact (applySteps_good hg1 _ hinv0).1
  have hinv2 : AllocInv st32.1 := by
    rw [ht2]; exact (applySteps_good hg2 _ hinv0).1
  have hcost12 : total_cost st31.1 ≤ total_cost st32.1 := by
    rw [ht1, ht2]
    exact take_cost_anti cascadeSteps_good init hinv0 hkk
  have hev12 : st32.2.length ≤ st31.2.length := by
    rw [ht1, ht2]
    exact take_events_mono cascadeSteps_good init hinv0 hkk
  by_cases he2 : total_cost st32.1 ≤ r₂
  · by_cases he1 : total_cost st31.1 ≤ r₁
    · -- neither run enters pass 4
      rw [pass4_eq_of_le r₁ st31 he1, pass4_eq_of_le r₂ st32 he2]
      exact ⟨hcost12, hev12⟩
    · -- only the smaller budget enters pass 4
      have hgt1 : total_cost st31.1 > r₁ := not_le.mp he1
      have hk1len : k₁ = σ.length :=
        walkN_eq_length_of_over r₁ σ init (by rw [← hw1]; exact he1)
      have hfull1 : st31 = applySteps σ init := by
        rw [ht1, hk1len, List.take_length]
      rw [pass4_eq_of_le r₂ st32 he2]
      constructor
      · calc total_cost (pass4 r₁ st31).1
            ≤ total_cost st31.1 := pass4_total_le r₁ st31 hr10 hinv1
          _ ≤ total_cost st32.1 := hcost12
      · have hcur1 : ((st31.1.filter (fun a => !a.skipped)).map
            SubTaskAllocation.estimated_cost_dollars).sum = total_cost st31.1 :=
          total_cost_eq_active_sum hinv1
        have hpos1 : 0 < ((st31.1.filter (fun a => !a.skipped)).map
            SubTaskAllocation.estimated_cost_dollars).sum := by
          rw [hcur1]; exact lt_trans hr10 hgt1
        rw [pass4_entered_eq r₁ st31 hgt1 hpos1]
        show st32.2.length ≤ (st31.2 ++ [DowngradeEvent.scaled]).length
        rw [List.length_append]
        calc st32.2.length ≤ st31.2.length := hev12
          _ ≤ st31.2.length + 1 := Nat.le_succ _
  · -- the larger budget enters pass 4, hence both do, on the same state
    have hgt2 : total_cost st32.1 > r₂ := not_le.mp he2
    have hk2len : k₂ = σ.length :=
      walkN_eq_length_of_over r₂ σ init (by rw [← hw2]; exact he2)
    have hk1len : k₁ = σ.length :=
      le_antisymm (walkN_le_length r₁ σ init) (hk2len ▸ hkk)
    have heq : st31 = st32 := by
      rw [ht1, ht2, hk1len, hk2len]
    rw [heq]
    have hgt2' : total_cost st32.1 > r₂ := hgt2
    have hgt1' : total_cost st32.1 > r₁ := lt_trans hlt hgt2
    have hcur : ((st32.1.filter (fun a => !a.skipped)).map
        SubTaskAllocation.estimated_cost_dollars).sum = total_cost st32.1 :=
      total_cost_eq_active_sum hinv2
    have hpos : 0 < ((st32.1.filter (fun a => !a.skipped)).map
        SubTaskAllocation.estimated_cost_dollars).sum := by
      rw [hcur]; exact lt_trans hr20 hgt2
    constructor
    · exact pass4_total_mono st32 r₁ r₂ hr10 (le_of_lt hlt) hgt2 hinv2
    · rw [pass4_entered_eq r₁ st32 hgt1' hpos, pass4_entered_eq r₂ st32 hgt2' hpos]

unseal Rat.add Rat.mul Rat.inv Rat.sub in
/-- Witness for C7 at concrete inputs: remaining $0.00001 (pass-4 floor)
against remaining $0.001 (no downgrade at all). -/
theorem cascade_monotone_witness :
    g1lowFloorPlan.total_estimated_cost_dollars ≤
      ((allocate g1low (1/1000) 0).toOption.map
        ExecutionPlan.total_estimated_cost_dollars).getD 0 := by
  have h2 : allocate g1low (1/1000) 0 =
      .ok { allocations := [⟨1, .fast, 2048, 64/78125, false⟩]
            total_estimated_tokens := 2048
            total_estimated_cost_dollars := 64/78125
            budget_dollars := 1/1000
            downgrades_applied := [] } := by rfl
  have hmain := cascade_monotone g1low 0 (1/100000) (1/1000) g1lowFloorPlan _
    (by rfl) h2 (by norm_num)
  rw [h2]
  exact hmain.1

/-! ### C5: best-of-attempts selection -/

theorem pyMax_foldl_spec :
    ∀ (l : List SubTaskAttempt) (acc : SubTaskAttempt),
      (l.foldl (fun b x => if x.quality_score > b.quality_score then x else b)
          acc = acc ∨
        l.foldl (fun b x => if x.quality_score > b.quality_score then x else b)
          acc ∈ l) ∧
      acc.quality_score ≤ (l.foldl
        (fun b x => if x.quality_score > b.quality_score then x else b)
          acc).quality_score ∧
      ∀ x ∈ l, x.quality_score ≤ (l.foldl
        (fun b x => if x.quality_score > b.quality_score then x else b)
          acc).quality_score
  | [], acc => ⟨Or.inl rfl, le_refl _, by simp⟩
  | x :: l, acc => by
    rw [List.foldl_cons]
    have ih := pyMax_foldl_spec l (if x.quality_score > acc.quality_score then x else acc)
    refine ⟨?_, ?_, ?_⟩
    · rcases ih.1 with h | h
      · rw [h]
        split
        · exact Or.inr (by simp)
        · exact Or.inl rfl
      · exact Or.inr (by simp [h])
    · refine le_trans ?_ ih.2.1
      split
      · next hgt => exact le_of_lt hgt
      · exact le_refl _
    · intro y hy
      rcases List.mem_cons.mp hy with rfl | hy'
      · refine le_trans ?_ ih.2.1
        split
        · exact le_refl _
        · next hng => exact le_of_not_lt hng
      · exact ih.2.2 y hy'

theorem pyMaxAttempt_spec (l : List SubTaskAttempt) (h : l ≠ []) :
    ∃ b, pyMaxAttempt l = some b ∧ b ∈ l ∧
      ∀ x ∈ l, x.quality_score ≤ b.quality_score := by
  rcases l with _ | ⟨a, rest⟩
  · exact absurd rfl h
  refine ⟨_, rfl, ?_, ?_⟩
  · rcases (pyMax_foldl_spec rest a).1 with heq | hmem
    · rw [heq]; simp
    · simp [hmem]
  · intro x hx
    rcases List.mem_cons.mp hx with rfl | hx'
    · exact (pyMax_foldl_spec rest x).2.1
    · exact (pyMax_foldl_spec rest a).2.2 x hx'

theorem pyIndex_getElem {l : List SubTaskAttempt} {b : SubTaskAttempt}
    (h : b ∈ l) :
    ∃ hlt : pyIndex l b < l.length, l[pyIndex l b] = b := by
  have hlt : pyIndex l b < l.length :=
    List.findIdx_lt_length_of_exists ⟨b, h, by simp⟩
  refine ⟨hlt, ?_⟩
  have := @List.findIdx_getElem _ (fun x => decide (x = b)) l hlt
  simpa using this

theorem mkNodeResult_best (sid : ℕ) (desc prompt : String)
    (atts : List SubTaskAttempt) (decs : List ROIDecision) (cost : ℚ)
    (h : atts ≠ []) :
    ∃ hlt : (mkNodeResult sid desc prompt atts decs cost).final_attempt_index <
        (mkNodeResult sid desc prompt atts decs cost).attempts.length,
      (∀ x ∈ (mkNodeResult sid desc prompt atts decs cost).attempts,
        x.quality_score ≤
          ((mkNodeResult sid desc prompt atts decs cost).attempts[
            (mkNodeResult sid desc prompt atts decs cost).final_attempt_index]).quality_score) ∧
      (mkNodeResult sid desc prompt atts decs cost).output =
        ((mkNodeResult sid desc prompt atts decs cost).attempts[
          (mkNodeResult sid desc prompt atts decs cost).final_attempt_index]).output ∧
      (mkNodeResult sid desc prompt atts decs cost).tier =
        ((mkNodeResult sid desc prompt atts decs cost).attempts[
          (mkNodeResult sid desc prompt atts decs cost).final_attempt_index]).tier := by
  rcases pyMaxAttempt_spec atts h with ⟨b, hb, hbmem, hbmax⟩
  have hatts : (mkNodeResult sid desc prompt atts decs cost).attempts = atts := rfl
  have hidx : (mkNodeResult sid desc prompt atts decs cost).final_attempt_index =
      pyIndex atts b := by
    simp only [mkNodeResult, hb]
  rcases pyIndex_getElem hbmem with ⟨hlt, hget⟩
  have hlt' : (mkNodeResult sid desc prompt atts decs cost).final_attempt_index <
      (mkNodeResult sid desc prompt atts decs cost).attempts.length := by
    rw [hatts, hidx]; exact hlt
  refine ⟨hlt', ?_, ?_, ?_⟩
  · intro x hx
    have hgeq : (mkNodeResult sid desc prompt atts decs cost).attempts[
        (mkNodeResult sid desc prompt atts decs cost).final_attempt_index] = b := by
      simp only [hatts, hidx]
      exact hget
    rw [hgeq]
    exact hbmax x (by rw [hatts] at hx; exact hx)
  · have hgeq : (mkNodeResult sid desc prompt atts decs cost).attempts[
        (mkNodeResult sid desc prompt atts decs cost).final_attempt_index] = b := by
      simp only [hatts, hidx]
      exact hget
    rw [hgeq]
    simp only [mkNodeResult, hb]
  · have hgeq : (mkNodeResult sid desc prompt atts decs cost).attempts[
        (mkNodeResult sid desc prompt atts decs cost).final_attempt_index] = b := by
      simp only [hatts, hidx]
      exact hget
    rw [hgeq]
    simp only [mkNodeResult, hb]

theorem stepDyn_results (llm : Tier → String → AttemptOut)
    (judge : String → String → String → ℚ × String) (task : String)
    (g : TaskGraph) (budget ub : ℚ) (fid : Option ℕ) (st : ExecState) (sid : ℕ) :
    ∃ sdesc sprompt atts decs cost,
      (stepDyn llm judge task g budget ub fid st sid).results =
        st.results ++ [mkNodeResult sid sdesc sprompt atts decs cost] :=
  ⟨_, _, _, _, _, rfl⟩

theorem foldDyn_results_mem (llm : Tier → String → AttemptOut)
    (judge : String → String → String → ℚ × String) (task : String)
    (g : TaskGraph) (budget ub : ℚ) (fid : Option ℕ) :
    ∀ (l : List ℕ) (st : ExecState) (r : SubTaskResult),
      r ∈ (l.foldl (stepDyn llm judge task g budget ub fid) st).results →
      r ∈ st.results ∨ ∃ sid sdesc sprompt atts decs cost,
        r = mkNodeResult sid sdesc sprompt atts decs cost
  | [], st, r, hr => Or.inl hr
  | sid :: l, st, r, hr => by
    rw [List.foldl_cons] at hr
    rcases foldDyn_results_mem llm judge task g budget ub fid l _ r hr with h | h
    · rcases stepDyn_results llm judge task g budget ub fid st sid with
        ⟨sdesc, sprompt, atts, decs, cost, heq⟩
      rw [heq] at h
      rcases List.mem_append.mp h with h' | h'
      · exact Or.inl h'
      · exact Or.inr ⟨sid, sdesc, sprompt, atts, decs, cost,
          by simpa using h'⟩
    · exact Or.inr h

/-- C5: every node result recorded by the dynamic executor with at least one
attempt points (via `final_attempt_index`) at an attempt whose quality score
is maximal among all the node's attempts, and the result's recorded output
and final tier are exactly that attempt's output and tier. -/
theorem best_of_attempts (llm : Tier → String → AttemptOut)
    (judge : String → String → String → ℚ × String) (task : String)
    (g : TaskGraph) (budget pc : ℚ) (r : SubTaskResult)
    (hr : r ∈ (executeDyn llm judge task g budget pc).results)
    (hne : r.attempts ≠ []) :
    ∃ hlt : r.final_attempt_index < r.attempts.length,
      (∀ x ∈ r.attempts, x.quality_score ≤
        (r.attempts[r.final_attempt_index]).quality_score) ∧
      r.output = (r.attempts[r.final_attempt_index]).output ∧
      r.tier = (r.attempts[r.final_attempt_index]).tier := by
  have hr' : r ∈ ((topoSort g).foldl
      (stepDyn llm judge task g budget
        ((budget - pc) - (budget - pc) * SYNTHESIS_RESERVE_FRACTION)
        (topoSort g).getLast?)
      ⟨[], [], [], pc, 0, 0⟩).results := hr
  rcases foldDyn_results_mem llm judge task g budget _ _ _ _ r hr' with h | h
  · simp at h
  · rcases h with ⟨sid, sdesc, sprompt, atts, decs, cost, rfl⟩
    apply mkNodeResult_best
    exact hne

set_option maxRecDepth 10000 in
unseal Rat.add Rat.mul Rat.inv Rat.sub in
/-- Witness for C5: the single result of the minimal run. -/
theorem best_of_attempts_witness :
    ∃ hlt : wrun.results.headI.final_attempt_index <
        wrun.results.headI.attempts.length,
      (∀ x ∈ wrun.results.headI.attempts, x.quality_score ≤
        (wrun.results.headI.attempts[
          wrun.results.headI.final_attempt_index]).quality_score) ∧
      wrun.results.headI.output = (wrun.results.headI.attempts[
        wrun.results.headI.final_attempt_index]).output ∧
      wrun.results.headI.tier = (wrun.results.headI.attempts[
        wrun.results.headI.final_attempt_index]).tier :=
  best_of_attempts wllm wjudge "t" g1low 1 0 wrun.results.headI
    (by decide) (by decide)

/-! ### C4: the synthesis reserve -/

theorem dyn_estimate_cost_pos (t : Tier) : 0 < dyn_estimate_cost t := by
  cases t <;>
    norm_num [dyn_estimate_cost, TIER_MAX_TOKENS, TIER_PRICING_PER_1M_OUTPUT]

theorem runNodeLoop_reserve (llm : Tier → String → AttemptOut)
    (judge : String → String → String → ℚ × String)
    (sid : ℕ) (desc task prompt : String) (ladder : List Tier) :
    ∀ (avail : ℚ) (atts : List SubTaskAttempt) (decs : List ROIDecision)
      (cost A : ℚ), avail + cost = A →
      ((atts = [] ∧ cost = 0) ∨ cost ≤ A ∨
        ∃ a ∈ atts, cost - a.cost_dollars ≤ A) →
      (((runNodeLoop llm judge sid desc task prompt ladder avail atts decs
            cost).1 = [] ∧
          (runNodeLoop llm judge sid desc task prompt ladder avail atts decs
            cost).2.2 = 0) ∨
        (runNodeLoop llm judge sid desc task prompt ladder avail atts decs
          cost).2.2 ≤ A ∨
        ∃ a ∈ (runNodeLoop llm judge sid desc task prompt ladder avail atts
            decs cost).1,
          (runNodeLoop llm judge sid desc task prompt ladder avail atts decs
            cost).2.2 - a.cost_dollars ≤ A) := by
  induction ladder with
  | nil =>
    intro avail atts decs cost A hA hP
    simpa only [runNodeLoop] using hP
  | cons tier rest ih =>
    intro avail atts decs cost A hA hP
    rcases rest with _ | ⟨next, rest'⟩
    · simp only [runNodeLoop]
      by_cases hest : dyn_estimate_cost tier > avail
      · rw [if_pos hest]; exact hP
      · rw [if_neg hest]
        have hav : (0:ℚ) ≤ avail :=
          le_trans (dyn_estimate_cost_pos tier).le (not_lt.mp hest)
        have hcost : cost ≤ A := by linarith
        by_cases hsc :
            (judge desc (llm tier prompt).output task).1 ≥ QUALITY_THRESHOLD
        · rw [if_pos hsc]
          refine Or.inr (Or.inr ⟨_,
            List.mem_append_right _ (List.mem_singleton_self _), ?_⟩)
          simp
          linarith
        · rw [if_neg hsc]
          refine Or.inr (Or.inr ⟨_,
            List.mem_append_right _ (List.mem_singleton_self _), ?_⟩)
          simp
          linarith
    · simp only [runNodeLoop]
      by_cases hest : dyn_estimate_cost tier > avail
      · rw [if_pos hest]; exact hP
      · rw [if_neg hest]
        have hav : (0:ℚ) ≤ avail :=
          le_trans (dyn_estimate_cost_pos tier).le (not_lt.mp hest)
        have hcost : cost ≤ A := by linarith
        by_cases hsc :
            (judge desc (llm tier prompt).output task).1 ≥ QUALITY_THRESHOLD
        · rw [if_pos hsc]
          refine Or.inr (Or.inr ⟨_,
            List.mem_append_right _ (List.mem_singleton_self _), ?_⟩)
          simp
          linarith
        · rw [if_neg hsc]
          by_cases hup : MIN_ROI ≤ (if dyn_estimate_cost next > 0 then
              EXPECTED_LIFT tier next / dyn_estimate_cost next else 0) ∧
              dyn_estimate_cost next ≤ avail -
                actual_cost (llm tier prompt).prompt_tokens
                  (llm tier prompt).completion_tokens tier
          · rw [if_pos hup]
            refine ih _ _ _ _ A (by linarith) ?_
            refine Or.inr (Or.inr ⟨_,
              List.mem_append_right _ (List.mem_singleton_self _), ?_⟩)
            simp
            linarith
          · rw [if_neg hup]
            refine Or.inr (Or.inr ⟨_,
              List.mem_append_right _ (List.mem_singleton_self _), ?_⟩)
            simp
            linarith

theorem stepDyn_nonfinal_spec (llm : Tier → String → AttemptOut)
    (judge : String → String → String → ℚ × String) (task : String)
    (g : TaskGraph) (B U : ℚ) (fid : Option ℕ) (st : ExecState) (sid : ℕ)
    (hfin : (fid == some sid) = false) :
    ∃ (atts : List SubTaskAttempt) (decs : List ROIDecision) (cost : ℚ)
      (sdesc sprompt : String),
      (stepDyn llm judge task g B U fid st sid).results =
        st.results ++ [mkNodeResult sid sdesc sprompt atts decs cost] ∧
      (stepDyn llm judge task g B U fid st sid).upstream_spent =
        st.upstream_spent + cost ∧
      ((atts = [] ∧ cost = 0) ∨
        cost ≤ min (U - st.upstream_spent) (B - st.total_spent) ∨
        ∃ a ∈ atts, cost - a.cost_dollars ≤
          min (U - st.upstream_spent) (B - st.total_spent)) := by
  simp only [stepDyn, hfin, Bool.false_eq_true, if_false]
  refine ⟨_, _, _, _, _, rfl, rfl, ?_⟩
  exact runNodeLoop_reserve llm judge sid _ task _ TIER_LADDER
    (min (U - st.upstream_spent) (B - st.total_spent)) [] [] 0
    (min (U - st.upstream_spent) (B - st.total_spent)) (add_zero _)
    (Or.inl ⟨rfl, rfl⟩)

theorem stepDyn_reserve (llm : Tier → String → AttemptOut)
    (judge : String → String → String → ℚ × String) (task : String)
    (g : TaskGraph) (B U : ℚ) (fid : Option ℕ) (st : ExecState) (sid : ℕ)
    (hfin : (fid == some sid) = false)
    (hsum : st.upstream_spent =
      (st.results.map SubTaskResult.cost_dollars).sum)
    (hres : st.upstream_spent ≤ U ∨
      ∃ a ∈ st.results.flatMap SubTaskResult.attempts,
        st.upstream_spent - a.cost_dollars ≤ U) :
    (stepDyn llm judge task g B U fid st sid).upstream_spent =
      ((stepDyn llm judge task g B U fid st sid).results.map
        SubTaskResult.cost_dollars).sum ∧
    ((stepDyn llm judge task g B U fid st sid).upstream_spent ≤ U ∨
      ∃ a ∈ (stepDyn llm judge task g B U fid st sid).results.flatMap
          SubTaskResult.attempts,
        (stepDyn llm judge task g B U fid st sid).upstream_spent -
          a.cost_dollars ≤ U) := by
  obtain ⟨atts, decs, cost, sdesc, sprompt, hre, hus, hP⟩ :=
    stepDyn_nonfinal_spec llm judge task g B U fid st sid hfin
  have hmc : (mkNodeResult sid sdesc sprompt atts decs cost).cost_dollars =
      cost := rfl
  have hma : (mkNodeResult sid sdesc sprompt atts decs cost).attempts =
      atts := rfl
  constructor
  · rw [hre, hus, hsum, List.map_append, List.sum_append]
    simp [hmc]
  · have hminU : min (U - st.upstream_spent) (B - st.total_spent) ≤
        U - st.upstream_spent := min_le_left _ _
    rcases hP with ⟨_, hC0⟩ | hC | ⟨a, ha, hC⟩
    · rw [hus, hC0, add_zero]
      rcases hres with h | ⟨a, ha, h⟩
      · exact Or.inl h
      · refine Or.inr ⟨a, ?_, h⟩
        rw [hre, List.flatMap_append]
        exact List.mem_append_left _ ha
    · refine Or.inl ?_
      rw [hus]
      linarith
    · refine Or.inr ⟨a, ?_, ?_⟩
      · rw [hre, List.flatMap_append]
        refine List.mem_append_right _ ?_
        simp [hma]
        exact ha
      · rw [hus]
        linarith

theorem foldDyn_reserve (llm : Tier → String → AttemptOut)
    (judge : String → String → String → ℚ × String) (task : String)
    (g : TaskGraph) (B U : ℚ) (fid : Option ℕ) :
    ∀ (l : List ℕ) (st : ExecState),
      (∀ sid ∈ l, (fid == some sid) = false) →
      st.upstream_spent = (st.results.map SubTaskResult.cost_dollars).sum →
      (st.upstream_spent ≤ U ∨
        ∃ a ∈ st.results.flatMap SubTaskResult.attempts,
          st.upstream_spent - a.cost_dollars ≤ U) →
      ((l.foldl (stepDyn llm judge task g B U fid) st).upstream_spent =
          ((l.foldl (stepDyn llm judge task g B U fid) st).results.map
            SubTaskResult.cost_dollars).sum ∧
        ((l.foldl (stepDyn llm judge task g B U fid) st).upstream_spent ≤ U ∨
          ∃ a ∈ (l.foldl (stepDyn llm judge task g B U fid)
              st).results.flatMap SubTaskResult.attempts,
            (l.foldl (stepDyn llm judge task g B U fid) st).upstream_spent -
              a.cost_dollars ≤ U))
  | [], _, _, hsum, hres => ⟨hsum, hres⟩
  | sid :: l, st, hall, hsum, hres => by
    rw [List.foldl_cons]
    have h1 := stepDyn_reserve llm judge task g B U fid st sid
      (hall sid (by simp)) hsum hres
    exact foldDyn_reserve llm judge task g B U fid l _
      (fun s hs => hall s (by simp [hs])) h1.1 h1.2

theorem foldDyn_results_append (llm : Tier → String → AttemptOut)
    (judge : String → String → String → ℚ × String) (task : String)
    (g : TaskGraph) (B U : ℚ) (fid : Option ℕ) :
    ∀ (l : List ℕ) (st : ExecState),
      ∃ ext : List SubTaskResult,
        (l.foldl (stepDyn llm judge task g B U fid) st).results =
          st.results ++ ext ∧ ext.length = l.length
  | [], st => ⟨[], by simp⟩
  | sid :: l, st => by
    rw [List.foldl_cons]
    obtain ⟨ext, hext, hlen⟩ := foldDyn_results_append llm judge task g B U
      fid l (stepDyn llm judge task g B U fid st sid)
    obtain ⟨sdesc, sprompt, atts, decs, cost, hstep⟩ :=
      stepDyn_results llm judge task g B U fid st sid
    refine ⟨mkNodeResult sid sdesc sprompt atts decs cost :: ext, ?_, ?_⟩
    · rw [hext, hstep]
      simp
    · simp [hlen]

/-- C4: dynamic reserve. In `DynamicExecutor.execute`, for every proper
leading segment of the execution order (all of whose nodes are non-terminal
when the order has no duplicate ids), the total model-call cost of those
nodes either stays within `(budget − planner_cost) × (1 − 0.35)` outright,
or exceeds it by at most the cost of a single recorded attempt — so the
0.35 synthesis reserve is preserved for the terminal node up to one
breaching attempt. -/
theorem dynamic_reserve (llm : Tier → String → AttemptOut)
    (judge : String → String → String → ℚ × String) (task : String)
    (g : TaskGraph) (budget pc : ℚ) (k : ℕ)
    (hpc : pc ≤ budget)
    (hk : k + 1 < (topoSort g).length)
    (hnodup : (topoSort g).Nodup) :
    ((((executeDyn llm judge task g budget pc).results.take (k + 1)).map
        SubTaskResult.cost_dollars).sum ≤
      (budget - pc) * (1 - SYNTHESIS_RESERVE_FRACTION)) ∨
    ∃ a ∈ ((executeDyn llm judge task g budget pc).results.take
        (k + 1)).flatMap SubTaskResult.attempts,
      ((((executeDyn llm judge task g budget pc).results.take (k + 1)).map
          SubTaskResult.cost_dollars).sum - a.cost_dollars ≤
        (budget - pc) * (1 - SYNTHESIS_RESERVE_FRACTION)) := by
  have hUeq : (budget - pc) - (budget - pc) * SYNTHESIS_RESERVE_FRACTION =
      (budget - pc) * (1 - SYNTHESIS_RESERVE_FRACTION) := by ring
  have hU0 : 0 ≤ (budget - pc) - (budget - pc) * SYNTHESIS_RESERVE_FRACTION := by
    rw [hUeq, show SYNTHESIS_RESERVE_FRACTION = 7/20 from rfl]
    have h : (0:ℚ) ≤ budget - pc := by linarith
    nlinarith
  have hsplit : topoSort g =
      (topoSort g).take (k + 1) ++ (topoSort g).drop (k + 1) :=
    (List.take_append_drop _ _).symm
  have hfoldeq : (topoSort g).foldl
        (stepDyn llm judge task g budget
          ((budget - pc) - (budget - pc) * SYNTHESIS_RESERVE_FRACTION)
          (topoSort g).getLast?) ⟨[], [], [], pc, 0, 0⟩ =
      ((topoSort g).drop (k + 1)).foldl
        (stepDyn llm judge task g budget
          ((budget - pc) - (budget - pc) * SYNTHESIS_RESERVE_FRACTION)
          (topoSort g).getLast?)
        (((topoSort g).take (k + 1)).foldl
          (stepDyn llm judge task g budget
            ((budget - pc) - (budget - pc) * SYNTHESIS_RESERVE_FRACTION)
            (topoSort g).getLast?) ⟨[], [], [], pc, 0, 0⟩) := by
    rw [← List.foldl_append, List.take_append_drop]
  have hne : topoSort g ≠ [] := List.ne_nil_of_length_pos (by omega)
  have hnf : ∀ sid ∈ (topoSort g).take (k + 1),
      ((topoSort g).getLast? == some sid) = false := by
    intro sid hsid
    rw [List.getLast?_eq_getLast _ hne]
    obtain ⟨i, hi, hgi⟩ := List.getElem_of_mem hsid
    have hik : i < k + 1 := by
      rw [List.length_take] at hi
      omega
    have hiL : i < (topoSort g).length := by omega
    rw [List.getElem_take] at hgi
    have hL : (topoSort g).length - 1 < (topoSort g).length := by omega
    have hlast : (topoSort g).getLast hne =
        (topoSort g)[(topoSort g).length - 1] :=
      List.getLast_eq_getElem _ hne
    have hneq : sid ≠ (topoSort g).getLast hne := by
      rw [hlast, ← hgi]
      intro heq
      have := (List.Nodup.getElem_inj_iff hnodup).mp heq
      omega
    exact beq_eq_false_iff_ne.mpr (fun h => hneq (Option.some.inj h).symm)
  have hinv := foldDyn_reserve llm judge task g budget
      ((budget - pc) - (budget - pc) * SYNTHESIS_RESERVE_FRACTION)
      (topoSort g).getLast? ((topoSort g).take (k + 1))
      ⟨[], [], [], pc, 0, 0⟩ hnf rfl (Or.inl hU0)
  obtain ⟨ext₀, hext₀, hlen₀⟩ := foldDyn_results_append llm judge task g
      budget ((budget - pc) - (budget - pc) * SYNTHESIS_RESERVE_FRACTION)
      (topoSort g).getLast? ((topoSort g).take (k + 1))
      ⟨[], [], [], pc, 0, 0⟩
  obtain ⟨ext, hext, _⟩ := foldDyn_results_append llm judge task g budget
      ((budget - pc) - (budget - pc) * SYNTHESIS_RESERVE_FRACTION)
      (topoSort g).getLast? ((topoSort g).drop (k + 1))
      (((topoSort g).take (k + 1)).foldl
        (stepDyn llm judge task g budget
          ((budget - pc) - (budget - pc) * SYNTHESIS_RESERVE_FRACTION)
          (topoSort g).getLast?) ⟨[], [], [], pc, 0, 0⟩)
  have hPreLen : ((((topoSort g).take (k + 1)).foldl
      (stepDyn llm judge task g budget
        ((budget - pc) - (budget - pc) * SYNTHESIS_RESERVE_FRACTION)
        (topoSort g).getLast?) ⟨[], [], [], pc, 0, 0⟩) :
      ExecState).results.length = k + 1 := by
    rw [hext₀, List.nil_append, hlen₀, List.length_take]
    omega
  have h1 : (executeDyn llm judge task g budget pc).results =
      (((topoSort g).take (k + 1)).foldl
        (stepDyn llm judge task g budget
          ((budget - pc) - (budget - pc) * SYNTHESIS_RESERVE_FRACTION)
          (topoSort g).getLast?) ⟨[], [], [], pc, 0, 0⟩).results ++ ext := by
    show ((topoSort g).foldl
        (stepDyn llm judge task g budget
          ((budget - pc) - (budget - pc) * SYNTHESIS_RESERVE_FRACTION)
          (topoSort g).getLast?) ⟨[], [], [], pc, 0, 0⟩).results = _
    rw [hfoldeq]
    exact hext
  have htl := List.take_left
    ((((topoSort g).take (k + 1)).foldl
      (stepDyn llm judge task g budget
        ((budget - pc) - (budget - pc) * SYNTHESIS_RESERVE_FRACTION)
        (topoSort g).getLast?) ⟨[], [], [], pc, 0, 0⟩) :
      ExecState).results ext
  rw [hPreLen] at htl
  have htake : (executeDyn llm judge task g budget pc).results.take (k + 1) =
      (((topoSort g).take (k + 1)).foldl
        (stepDyn llm judge task g budget
          ((budget - pc) - (budget - pc) * SYNTHESIS_RESERVE_FRACTION)
          (topoSort g).getLast?) ⟨[], [], [], pc, 0, 0⟩).results := by
    rw [h1]
    exact htl
  rw [htake]
  obtain ⟨hsum, hres⟩ := hinv
  rw [← hsum, ← hUeq]
  exact hres

unseal Rat.add Rat.mul Rat.inv Rat.sub in
/-- Witness for C4: the five-node scenario at budget $0.06, first node. -/
theorem dynamic_reserve_witness :
    (0:ℚ) ≤ 6/100 ∧ 0 + 1 < (topoSort s2graph).length ∧
    (topoSort s2graph).Nodup ∧
    (((((executeDyn s2llm s2judge "task" s2graph (6/100) 0).results.take
          (0 + 1)).map SubTaskResult.cost_dollars).sum ≤
        (6/100 - 0) * (1 - SYNTHESIS_RESERVE_FRACTION)) ∨
      ∃ a ∈ ((executeDyn s2llm s2judge "task" s2graph (6/100)
          0).results.take (0 + 1)).flatMap SubTaskResult.attempts,
        (((((executeDyn s2llm s2judge "task" s2graph (6/100)
            0).results.take (0 + 1)).map SubTaskResult.cost_dollars).sum -
          a.cost_dollars) ≤
          (6/100 - 0) * (1 - SYNTHESIS_RESERVE_FRACTION))) :=
  ⟨by norm_num, by decide, by decide,
    dynamic_reserve s2llm s2judge "task" s2graph (6/100) 0 0
      (by norm_num) (by decide) (by decide)⟩

end Pyrrhus
